import Mathlib

/-!
# DDS swoop/chirp generator (`chirp/chirp.c`, `chirp/chirp2.c`)

Shallow embedding of the two interrupt handlers `alarm_irq` and of the table
builders in `main`, followed by the properties of the specification.

Conventions of the embedding.

* `int` variables are `Int`; `unsigned int` and `uint16_t` variables are `Nat`,
  reduced modulo `2 ^ 32` respectively `2 ^ 16` where the C code wraps.
* `double` values are the rational numbers they denote.  Every arithmetic
  operation on doubles is the exact rational operation followed by `roundD`,
  rounding to the nearest binary64 value (ties to even).  Infinities and NaN
  are outside the model.
* A table is the function sending an index to the value a read at that index
  returns, so that a read past the end of an array is still a read (of whatever
  the adjacent memory holds); the reads a tick performs are recorded in its
  `Effects`.
* Hardware registers: `timerawl` is an input of each tick, the alarm register
  is a field of the state, and the words handed to `spi_write16_blocking` are
  recorded in the `Effects` of the tick.  The probe pin `ISR_GPIO`, the chip-select
  pin and the interrupt-clear write have no influence on the globals and are left out.
-/

/-! ## binary64 arithmetic -/

namespace Float64

/-- Nearest integer to `q`, ties going to the even neighbour. -/
def roundHalfEven (q : ℚ) : ℤ :=
  if q - ⌊q⌋ < 1 / 2 then ⌊q⌋
  else if 1 / 2 < q - ⌊q⌋ then ⌊q⌋ + 1
  else if ⌊q⌋ % 2 = 0 then ⌊q⌋ else ⌊q⌋ + 1

/-- Exponent of the unit in the last place of the binade holding `q`: a binary64
significand has 53 bits and the smallest normal exponent is `-1022`. -/
def ulpExp (q : ℚ) : ℤ := max (Int.log 2 |q|) (-1022) - 52

/-- Round `q` to the nearest binary64 value, ties to even (no overflow to infinity). -/
def roundD (q : ℚ) : ℚ := (roundHalfEven (q / 2 ^ ulpExp q) : ℚ) * 2 ^ ulpExp q

/-- Product of two doubles. -/
def mulD (a b : ℚ) : ℚ := roundD (a * b)

/-- Quotient of two doubles. -/
def divD (a b : ℚ) : ℚ := roundD (a / b)

/-- Difference of two doubles. -/
def subD (a b : ℚ) : ℚ := roundD (a - b)

/-- The C conversion `(int)x` of a double: truncation toward zero. -/
def toInt (q : ℚ) : ℤ := if 0 ≤ q then ⌊q⌋ else ⌈q⌉

/-- The C library function `round`: nearest integer, halves away from zero. -/
def roundNearest (q : ℚ) : ℤ := if 0 ≤ q then ⌊q + 1 / 2⌋ else ⌈q - 1 / 2⌉

end Float64

/-! ## Segmented variant: `chirp.c` -/

namespace Chirp

open Float64

def two32 : Nat := 4294967296
def DELAY : Nat := 20
def sine_table_size : Int := 256
def swoop_sample_size : Int := 5200
def chirp_sample_size : Int := 5200
def DAC_config_chan_A : Int := 0b0011000000000000

/-- The global arrays read by `alarm_irq`. -/
structure Tables where
  sin_table : Int → Int
  swoop_samples : Int → Int
  chirp_samples : Int → Int
  ampl_table : Int → ℚ

/-- The globals written by `alarm_irq`, and the alarm register. -/
structure State where
  swoop_or_chirp : Char
  swoop_sample_index : Int
  chirp_sample_index : Int
  phase_accum_main : Nat
  DAC_data : Nat
  alarm : Nat

/-- Names of the four arrays. -/
inductive TableId
  | sin_table
  | swoop_samples
  | chirp_samples
  | ampl_table
  deriving DecidableEq, Repr

/-- What one tick does to the outside: the words written to the SPI bus and the
array reads performed, in order. -/
structure Effects where
  bus : List Nat
  reads : List (TableId × Int)

/-- The globals at reset: `swoop_or_chirp = 's'`, both indices `0`, the
zero-initialised accumulator and output word; `alarm0` is the deadline armed by `main`. -/
def init (alarm0 : Nat) : State :=
  { swoop_or_chirp := 's', swoop_sample_index := 0, chirp_sample_index := 0,
    phase_accum_main := 0, DAC_data := 0, alarm := alarm0 }

/-- The statement `phase_accum_main += inc` for an `int` increment: the sum is taken
in `unsigned int`, that is modulo `2 ^ 32`. -/
def phase_add (phase : Nat) (inc : Int) : Nat := (((phase : Int) + inc) % (two32 : Int)).toNat

/-- The magnitude `(int)((double)(raw + 2048) * e)` of lines 80 and 95. -/
def magnitude (raw : Int) (e : ℚ) : Int := toInt (mulD ((raw + 2048 : Int) : ℚ) e)

/-- The value assigned to the `uint16_t DAC_data` at lines 79-82 and 94-97:
`DAC_config_chan_A | (magnitude & 0xffff)`. -/
def dac_word (raw : Int) (e : ℚ) : Nat :=
  ((Int.lor DAC_config_chan_A (Int.land (magnitude raw e) 0xffff)) % 65536).toNat

/-- The tail of `alarm_irq`, lines 101-104: one SPI transaction carrying `DAC_data`. -/
def spi_part (s : State) (r : List (TableId × Int)) : State × Effects :=
  (s, { bus := [s.DAC_data], reads := r })

/-- The `else` branch of lines 92-98. -/
def emit_chirp (T : Tables) (s : State) : State × List (TableId × Int) :=
  let i := s.chirp_sample_index
  let phase := phase_add s.phase_accum_main (T.chirp_samples i)
  let idx := i + 1
  ({ s with
      chirp_sample_index := idx
      phase_accum_main := phase
      DAC_data := dac_word (T.sin_table ((phase >>> 24 : Nat) : Int)) (T.ampl_table idx) },
   [(TableId.chirp_samples, i), (TableId.sin_table, ((phase >>> 24 : Nat) : Int)),
    (TableId.ampl_table, idx)])

/-- The `else` branch of lines 77-83. -/
def emit_swoop (T : Tables) (s : State) : State × List (TableId × Int) :=
  let i := s.swoop_sample_index
  let phase := phase_add s.phase_accum_main (T.swoop_samples i)
  let idx := i + 1
  ({ s with
      swoop_sample_index := idx
      phase_accum_main := phase
      DAC_data := dac_word (T.sin_table ((phase >>> 24 : Nat) : Int)) (T.ampl_table idx) },
   [(TableId.swoop_samples, i), (TableId.sin_table, ((phase >>> 24 : Nat) : Int)),
    (TableId.ampl_table, idx)])

/-- Lines 86-104: the `if (swoop_or_chirp == 'c')` block and what follows it. -/
def chirp_part (T : Tables) (s : State) (r : List (TableId × Int)) : State × Effects :=
  if s.swoop_or_chirp = 'c' then
    if s.chirp_sample_index ≥ chirp_sample_size then
      ({ s with
          chirp_sample_index := 0
          swoop_or_chirp := 's'
          alarm := (s.alarm + 250000) % two32 },
       { bus := [], reads := r })
    else
      spi_part (emit_chirp T s).1 (r ++ (emit_chirp T s).2)
  else spi_part s r

/-- The interrupt handler of `chirp.c`; `timerawl` is the value read from the timer
at line 69. -/
def alarm_irq (T : Tables) (timerawl : Nat) (s0 : State) : State × Effects :=
  let s := { s0 with alarm := (timerawl + DELAY) % two32 }
  if s.swoop_or_chirp = 's' then
    if s.swoop_sample_index ≥ swoop_sample_size then
      ({ s with swoop_sample_index := 0, swoop_or_chirp := 'c' }, { bus := [], reads := [] })
    else
      chirp_part T (emit_swoop T s).1 (emit_swoop T s).2
  else chirp_part T s []

/-- State after `n` ticks; `time k` is the timer value read by tick number `k`
(counting from `0`). -/
def run (T : Tables) (time : Nat → Nat) : Nat → State → State
  | 0, s => s
  | n + 1, s => (alarm_irq T (time n) (run T time n s)).1

/-- Effects of tick number `n` (counting from `0`), that is of the `(n+1)`-th tick. -/
def effects (T : Tables) (time : Nat → Nat) (n : Nat) (s : State) : Effects :=
  (alarm_irq T (time n) (run T time n s)).2

/-- Whether a read stays inside the array as declared: `sin_table[256]`,
`swoop_samples[5200]`, `chirp_samples[5200]`, `ampl_table[5200]`. -/
def in_bounds : TableId × Int → Bool
  | (TableId.sin_table, i) => decide (0 ≤ i ∧ i < sine_table_size)
  | (TableId.swoop_samples, i) => decide (0 ≤ i ∧ i < swoop_sample_size)
  | (TableId.chirp_samples, i) => decide (0 ≤ i ∧ i < chirp_sample_size)
  | (TableId.ampl_table, i) => decide (0 ≤ i ∧ i < swoop_sample_size)

/-- The sequencer is in one of its two states and each segment index is between `0` and
the segment length. -/
def Inv (s : State) : Prop :=
  (s.swoop_or_chirp = 's' ∨ s.swoop_or_chirp = 'c') ∧
  0 ≤ s.swoop_sample_index ∧ s.swoop_sample_index ≤ 5200 ∧
  0 ≤ s.chirp_sample_index ∧ s.chirp_sample_index ≤ 5200

/-- Sample tables for concrete runs: a constant sine entry, the index itself as phase
increment, a flat envelope. -/
def T0 : Tables :=
  { sin_table := fun _ => 1000, swoop_samples := fun i => i, chirp_samples := fun i => 2 * i,
    ampl_table := fun _ => 1 / 2 }

/-- A timer advancing by `20` per tick. -/
def time0 (k : Nat) : Nat := 20 * k

/-! ### The table builders of `main` -/

/-- The argument `(float)ii*6.283/(float)sine_table_size` passed to `sin` at line 135 (and
at line 121 of `chirp2.c`).  The conversions of `ii` and of `256` are exact; `6.283` is a
`double` literal, so the product and the quotient are taken in `double`. -/
def sin_arg (ii : Int) : ℚ :=
  divD (mulD (ii : ℚ) (roundD (6283 / 1000))) (sine_table_size : ℚ)

/-- Value stored in `sin_table[ii]` by the loop of lines 134-136 (the same loop is at lines
120-122 of `chirp2.c`): `(int)(2047*sin((float)ii*6.283/(float)sine_table_size))`; `sinD`
is the C library function `sin` on doubles. -/
def sin_table (sinD : ℚ → ℚ) (ii : Int) : Int := toInt (mulD 2047 (sinD (sin_arg ii)))

/-- Value stored in `ampl_table[ii]` by the loop of lines 139-143, for `0 ≤ ii < 5200`. -/
def ampl_table (ii : Int) : ℚ :=
  if ii < 1000 then divD (ii : ℚ) 1000
  else if ii < swoop_sample_size - 1000 then 1
  else subD 1 (divD ((-(swoop_sample_size - 1000 - ii) : Int) : ℚ) 1000)

end Chirp

/-! ## Concatenated variant: `chirp2.c` -/

namespace Chirp2

open Float64

def two32 : Nat := 4294967296
def DELAY : Nat := 20
def swoop_sample_size : Int := 4200
def chirp_sample_size : Int := 4200
def pause_sample_size : Int := 5000
def song_sample_size : Int := swoop_sample_size + pause_sample_size + chirp_sample_size
def DAC_config_chan_A : Int := 0b0011000000000000

/-- The globals written by `alarm_irq`, and the alarm register. -/
structure State where
  song_sample_index : Int
  DAC_data : Nat
  alarm : Nat

/-- What one tick does to the outside: the words written to the SPI bus and the indices
at which `song_samples` is read. -/
structure Effects where
  bus : List Nat
  reads : List Int

/-- The globals at reset; `alarm0` is the deadline armed by `main`. -/
def init (alarm0 : Nat) : State := { song_sample_index := 0, DAC_data := 0, alarm := alarm0 }

/-- The value assigned to `DAC_data` at lines 81-84: `DAC_config_chan_A | (sample & 0xffff)`. -/
def dac_word (sample : Int) : Nat :=
  ((Int.lor DAC_config_chan_A (Int.land sample 0xffff)) % 65536).toNat

/-- The interrupt handler of `chirp2.c`; `timerawl` is the timer value read at line 72 and
`timerawl2` the one read at line 76. -/
def alarm_irq (song_samples : Int → Int) (timerawl timerawl2 : Nat) (s0 : State) :
    State × Effects :=
  let s := { s0 with alarm := (timerawl + DELAY) % two32 }
  if s.song_sample_index ≥ song_sample_size then
    ({ s with song_sample_index := 0, alarm := (timerawl2 + 500000) % two32 },
     { bus := [], reads := [] })
  else
    let i := s.song_sample_index
    let w := dac_word (song_samples i)
    ({ s with DAC_data := w, song_sample_index := i + 1 + 1 }, { bus := [w], reads := [i] })

/-- State after `n` ticks; `time k` and `time2 k` are the timer values read by tick
number `k` (counting from `0`). -/
def run (song_samples : Int → Int) (time time2 : Nat → Nat) : Nat → State → State
  | 0, s => s
  | n + 1, s =>
    (alarm_irq song_samples (time n) (time2 n) (run song_samples time time2 n s)).1

/-- Effects of tick number `n` (counting from `0`), that is of the `(n+1)`-th tick. -/
def effects (song_samples : Int → Int) (time time2 : Nat → Nat) (n : Nat) (s : State) :
    Effects :=
  (alarm_irq song_samples (time n) (time2 n) (run song_samples time time2 n s)).2

/-- Value stored in `ampl_table[ii]` by the three loops of lines 125-137, for
`0 ≤ ii < 13400`. -/
def ampl_table (ii : Int) : ℚ :=
  if ii < swoop_sample_size then
    if ii < 1000 then divD (ii : ℚ) 1000
    else if ii < swoop_sample_size - 2000 then 1
    else subD 1 (divD ((-(swoop_sample_size - 2000 - ii) : Int) : ℚ) 2000)
  else if ii < swoop_sample_size + pause_sample_size then 0
  else
    if ii < swoop_sample_size + pause_sample_size + 1000 then divD (ii : ℚ) 1000
    else if ii < swoop_sample_size + pause_sample_size + chirp_sample_size - 2000 then 1
    else subD 1 (divD
      ((-(swoop_sample_size + pause_sample_size + chirp_sample_size - 2000 - ii) : Int) : ℚ)
      2000)

/-- A sample buffer for concrete runs: entry `i` holds `i`. -/
def song0 (i : Int) : Int := i

/-- A timer advancing by `20` per tick. -/
def time0 (k : Nat) : Nat := 20 * k

end Chirp2

/-! ## Theorems: binary64 rounding -/

namespace Float64

theorem roundHalfEven_cases (q : ℚ) :
    roundHalfEven q = ⌊q⌋ ∨ (roundHalfEven q = ⌊q⌋ + 1 ∧ 1 / 2 ≤ q - ⌊q⌋) := by
  unfold roundHalfEven
  split_ifs with h1 h2 h3
  · exact Or.inl rfl
  · exact Or.inr ⟨rfl, h2.le⟩
  · exact Or.inl rfl
  · exact Or.inr ⟨rfl, not_lt.mp h1⟩

theorem abs_roundHalfEven_sub_le (q : ℚ) : |(roundHalfEven q : ℚ) - q| ≤ 1 / 2 := by
  have hf := Int.floor_le q
  have hl := Int.lt_floor_add_one q
  unfold roundHalfEven
  split_ifs with h1 h2 h3 <;> rw [abs_le] <;> constructor <;> push_cast <;> linarith

theorem roundHalfEven_intCast (z : ℤ) : roundHalfEven (z : ℚ) = z := by
  simp [roundHalfEven]

theorem roundHalfEven_le {q : ℚ} {n : ℤ} (h : q ≤ n) : roundHalfEven q ≤ n := by
  have hf := Int.floor_le q
  rcases roundHalfEven_cases q with e | ⟨e, hfr⟩
  · rw [e]
    exact_mod_cast hf.trans h
  · rw [e]
    have : ((⌊q⌋ : ℤ) : ℚ) < n := by linarith
    have : ⌊q⌋ < n := by exact_mod_cast this
    omega

theorem le_roundHalfEven {q : ℚ} {n : ℤ} (h : (n : ℚ) ≤ q) : n ≤ roundHalfEven q := by
  have hf : n ≤ ⌊q⌋ := Int.le_floor.mpr h
  rcases roundHalfEven_cases q with e | ⟨e, -⟩ <;> rw [e] <;> omega

theorem two_zpow_pos (u : ℤ) : (0 : ℚ) < 2 ^ u := zpow_pos (by norm_num) u

/-- `roundD` never crosses a point of the grid it rounds to. -/
theorem roundD_le_grid (q : ℚ) (m : ℤ) (h : q ≤ m * 2 ^ ulpExp q) :
    roundD q ≤ m * 2 ^ ulpExp q := by
  have hp := two_zpow_pos (ulpExp q)
  have h1 : q / 2 ^ ulpExp q ≤ m := by rwa [div_le_iff₀ hp]
  have h2 : ((roundHalfEven (q / 2 ^ ulpExp q) : ℤ) : ℚ) ≤ m := by
    exact_mod_cast roundHalfEven_le h1
  unfold roundD
  exact mul_le_mul_of_nonneg_right h2 hp.le

theorem grid_le_roundD (q : ℚ) (m : ℤ) (h : (m : ℚ) * 2 ^ ulpExp q ≤ q) :
    (m : ℚ) * 2 ^ ulpExp q ≤ roundD q := by
  have hp := two_zpow_pos (ulpExp q)
  have h1 : (m : ℚ) ≤ q / 2 ^ ulpExp q := by rwa [le_div_iff₀ hp]
  have h2 : (m : ℚ) ≤ ((roundHalfEven (q / 2 ^ ulpExp q) : ℤ) : ℚ) := by
    exact_mod_cast le_roundHalfEven h1
  unfold roundD
  exact mul_le_mul_of_nonneg_right h2 hp.le

theorem roundD_nonneg {q : ℚ} (h : 0 ≤ q) : 0 ≤ roundD q := by
  have := grid_le_roundD q 0 (by simpa using h)
  simpa using this

theorem ulpExp_le {q : ℚ} {k : ℤ} (hk : 0 ≤ k) (h : |q| ≤ 2 ^ k) : ulpExp q ≤ k - 52 := by
  have hlog : Int.log 2 |q| ≤ k := by
    rcases eq_or_lt_of_le (abs_nonneg q) with h0 | h0
    · rw [← h0]
      simpa using hk
    · have := Int.log_mono_right (b := 2) h0 h
      rwa [show ((2 : ℚ) ^ k) = ((2 : ℕ) : ℚ) ^ k by norm_num, Int.log_zpow (by norm_num)] at this
  unfold ulpExp
  have : max (Int.log 2 |q|) (-1022) ≤ k := max_le hlog (by omega)
  omega

/-- An integer is a point of every grid of non-positive exponent. -/
theorem int_on_grid (n : ℤ) {u : ℤ} (hu : u ≤ 0) :
    ((n * 2 ^ (-u).toNat : ℤ) : ℚ) * 2 ^ u = n := by
  have h1 : ((2 : ℚ) ^ (-u).toNat) = 2 ^ (-u) := by
    rw [← zpow_natCast, Int.toNat_of_nonneg (by omega)]
  push_cast
  rw [h1, mul_assoc, ← zpow_add₀ (by norm_num)]
  simp

theorem roundD_le_int {q : ℚ} {n : ℤ} (hq : |q| ≤ 2 ^ (52 : ℤ)) (h : q ≤ n) : roundD q ≤ n := by
  have hu : ulpExp q ≤ 0 := by
    have := ulpExp_le (by norm_num) hq
    omega
  have := roundD_le_grid q (n * 2 ^ (-(ulpExp q)).toNat) (by rw [int_on_grid n hu]; exact h)
  rwa [int_on_grid n hu] at this

theorem int_le_roundD {q : ℚ} {n : ℤ} (hq : |q| ≤ 2 ^ (52 : ℤ)) (h : (n : ℚ) ≤ q) :
    (n : ℚ) ≤ roundD q := by
  have hu : ulpExp q ≤ 0 := by
    have := ulpExp_le (by norm_num) hq
    omega
  have := grid_le_roundD q (n * 2 ^ (-(ulpExp q)).toNat) (by rw [int_on_grid n hu]; exact h)
  rwa [int_on_grid n hu] at this

theorem abs_roundD_sub_le (q : ℚ) : |roundD q - q| ≤ 2 ^ ulpExp q / 2 := by
  have hp := two_zpow_pos (ulpExp q)
  have h := abs_roundHalfEven_sub_le (q / 2 ^ ulpExp q)
  have e : roundD q - q = ((roundHalfEven (q / 2 ^ ulpExp q) : ℚ) - q / 2 ^ ulpExp q)
      * 2 ^ ulpExp q := by
    unfold roundD
    field_simp
  rw [e, abs_mul, abs_of_pos hp]
  calc _ ≤ 1 / 2 * 2 ^ ulpExp q := mul_le_mul_of_nonneg_right h hp.le
    _ = 2 ^ ulpExp q / 2 := by ring

theorem abs_roundD_sub_le_of_le {q : ℚ} {k : ℤ} (hk : 0 ≤ k) (h : |q| ≤ 2 ^ k) :
    |roundD q - q| ≤ 2 ^ (k - 53) := by
  have hu := ulpExp_le hk h
  calc |roundD q - q| ≤ 2 ^ ulpExp q / 2 := abs_roundD_sub_le q
    _ ≤ 2 ^ (k - 52) / 2 := by
        apply div_le_div_of_nonneg_right _ (by norm_num)
        exact zpow_le_zpow_right₀ (by norm_num) hu
    _ = 2 ^ (k - 53) := by
        rw [show k - 52 = (k - 53) + 1 by ring, zpow_add₀ (by norm_num)]
        simp

theorem roundD_near (q : ℚ) (k : ℤ) (ε : ℚ) (hk : 0 ≤ k) (h : |q| ≤ 2 ^ k)
    (hε : (2 : ℚ) ^ (k - 53) ≤ ε) : q - ε ≤ roundD q ∧ roundD q ≤ q + ε := by
  have := abs_le.mp (abs_roundD_sub_le_of_le hk h)
  constructor <;> linarith [this.1, this.2]

/-- A dyadic rational with few enough bits is a binary64 value. -/
theorem roundD_dyadic (m : ℤ) (j : ℕ) {k : ℤ} (hk : 0 ≤ k) (hkj : k + j ≤ 52)
    (h : |(m : ℚ) / 2 ^ j| ≤ 2 ^ k) : roundD ((m : ℚ) / 2 ^ j) = (m : ℚ) / 2 ^ j := by
  have hu := ulpExp_le hk h
  set q := (m : ℚ) / 2 ^ j with hq
  set u := ulpExp q with hudef
  have hp := two_zpow_pos u
  have e : q / 2 ^ u = ((m * 2 ^ (-u - j).toNat : ℤ) : ℚ) := by
    have h1 : ((2 : ℚ) ^ (-u - j).toNat) = 2 ^ (-u - j) := by
      rw [← zpow_natCast, Int.toNat_of_nonneg (by omega)]
    push_cast
    rw [h1, hq, zpow_sub₀ (by norm_num), zpow_neg, zpow_natCast]
    field_simp
    exact Or.inl (mul_comm _ _)
  show (roundHalfEven (q / 2 ^ u) : ℚ) * 2 ^ u = q
  rw [e, roundHalfEven_intCast, ← e]
  field_simp

theorem roundD_zero : roundD 0 = 0 := by
  have := roundD_dyadic 0 0 (k := 0) (by norm_num) (by norm_num) (by norm_num)
  simpa using this

theorem roundD_intCast (n : ℤ) (h : |(n : ℚ)| ≤ 2 ^ (52 : ℤ)) : roundD (n : ℚ) = n := by
  have := roundD_dyadic n 0 (k := 52) (by norm_num) (by norm_num) (by simpa using h)
  simpa using this

theorem roundHalfEven_eq_of_near (x : ℚ) (m : ℤ) (h : |x - m| < 1 / 2) : roundHalfEven x = m := by
  have h1 := abs_le.mp (abs_roundHalfEven_sub_le x)
  have h2 := abs_lt.mp h
  have h3 : |((roundHalfEven x - m : ℤ) : ℚ)| < ((1 : ℤ) : ℚ) := by
    push_cast
    rw [abs_lt]
    constructor <;> linarith [h1.1, h1.2, h2.1, h2.2]
  rw [← Int.cast_abs] at h3
  have h4 : |roundHalfEven x - m| < 1 := by exact_mod_cast h3
  have h5 := abs_lt.mp h4
  omega

theorem ulpExp_eq (q : ℚ) (e : ℤ) (he : -1022 ≤ e) (h0 : 2 ^ e ≤ |q|) (h1 : |q| < 2 ^ (e + 1)) :
    ulpExp q = e - 52 := by
  have hpos : 0 < |q| := lt_of_lt_of_le (two_zpow_pos e) h0
  have a : e ≤ Int.log 2 |q| := by
    rw [← Int.zpow_le_iff_le_log (by norm_num) hpos]
    simpa using h0
  have b : Int.log 2 |q| < e + 1 := by
    rw [← Int.lt_zpow_iff_log_lt (by norm_num) hpos]
    simpa using h1
  unfold ulpExp
  rw [max_eq_left (by omega)]
  omega

/-- Evaluation of `roundD` from the binade `e` of `q` and the nearest significand `m`. -/
theorem roundD_eq (q : ℚ) (e m : ℤ) (he : -1022 ≤ e) (h0 : 2 ^ e ≤ |q|) (h1 : |q| < 2 ^ (e + 1))
    (hm : |q / 2 ^ (e - 52) - m| < 1 / 2) : roundD q = m * 2 ^ (e - 52) := by
  unfold roundD
  rw [ulpExp_eq q e he h0 h1, roundHalfEven_eq_of_near _ m hm]

end Float64

namespace Chirp

open Float64

/-! ## Theorems: the sequencer of `chirp.c` -/

theorem alarm_irq_swoop_emit (T : Tables) (t : Nat) (s : State)
    (h : s.swoop_or_chirp = 's') (hi : s.swoop_sample_index < 5200) :
    alarm_irq T t s =
      spi_part (emit_swoop T { s with alarm := (t + DELAY) % two32 }).1
        (emit_swoop T { s with alarm := (t + DELAY) % two32 }).2 := by
  have hsc : ¬ ('s' : Char) = 'c' := by decide
  simp [alarm_irq, chirp_part, emit_swoop, h, swoop_sample_size, not_le.mpr hi, hsc]

theorem alarm_irq_swoop_done (T : Tables) (t : Nat) (s : State)
    (h : s.swoop_or_chirp = 's') (hi : 5200 ≤ s.swoop_sample_index) :
    alarm_irq T t s =
      ({ s with alarm := (t + DELAY) % two32, swoop_sample_index := 0, swoop_or_chirp := 'c' },
       { bus := [], reads := [] }) := by
  simp [alarm_irq, h, swoop_sample_size, hi]

theorem alarm_irq_chirp_emit (T : Tables) (t : Nat) (s : State)
    (h : s.swoop_or_chirp = 'c') (hi : s.chirp_sample_index < 5200) :
    alarm_irq T t s =
      spi_part (emit_chirp T { s with alarm := (t + DELAY) % two32 }).1
        (emit_chirp T { s with alarm := (t + DELAY) % two32 }).2 := by
  have hsc : ¬ ('c' : Char) = 's' := by decide
  simp [alarm_irq, chirp_part, emit_chirp, h, chirp_sample_size, not_le.mpr hi, hsc]

theorem alarm_irq_chirp_done (T : Tables) (t : Nat) (s : State)
    (h : s.swoop_or_chirp = 'c') (hi : 5200 ≤ s.chirp_sample_index) :
    alarm_irq T t s =
      ({ s with alarm := ((t + DELAY) % two32 + 250000) % two32, chirp_sample_index := 0,
                swoop_or_chirp := 's' },
       { bus := [], reads := [] }) := by
  have hsc : ¬ ('c' : Char) = 's' := by decide
  simp [alarm_irq, chirp_part, h, chirp_sample_size, hi, hsc]

theorem phase_add_lt (p : Nat) (a : Int) : phase_add p a < two32 := by
  unfold phase_add
  have h2 : (0 : Int) < (two32 : Int) := by simp [two32]
  have := Int.emod_lt_of_pos ((p : Int) + a) h2
  have := Int.emod_nonneg ((p : Int) + a) h2.ne'
  omega

theorem phase_add_emod (x : Int) (b : Int) :
    phase_add (x % (two32 : Int)).toNat b = ((x + b) % (two32 : Int)).toNat := by
  unfold phase_add
  have h2 : (two32 : Int) ≠ 0 := by simp [two32]
  rw [Int.toNat_of_nonneg (Int.emod_nonneg _ h2), Int.emod_add_emod]

theorem run_add (T : Tables) (time : Nat → Nat) (m n : Nat) (s : State) :
    run T time (m + n) s = run T (fun k => time (m + k)) n (run T time m s) := by
  induction n with
  | zero => rfl
  | succ n ih =>
    show (alarm_irq T (time (m + n)) (run T time (m + n) s)).1 = _
    rw [ih]
    rfl

theorem run_succ (T : Tables) (time : Nat → Nat) (n : Nat) (s : State) :
    run T time (n + 1) s = (alarm_irq T (time n) (run T time n s)).1 := rfl

theorem effects_add (T : Tables) (time : Nat → Nat) (m n : Nat) (s : State) :
    effects T time (m + n) s = effects T (fun k => time (m + k)) n (run T time m s) := by
  simp only [effects, run_add]

/-- While the swoop segment plays, only its own index and the accumulator move. -/
theorem run_swoop_inv (T : Tables) (time : Nat → Nat) (s : State)
    (hs : s.swoop_or_chirp = 's') (hi : s.swoop_sample_index = 0) (k : Nat) (hk : k ≤ 5200) :
    (run T time k s).swoop_or_chirp = 's' ∧
    (run T time k s).swoop_sample_index = k ∧
    (run T time k s).chirp_sample_index = s.chirp_sample_index := by
  induction k with
  | zero => simp [run, hs, hi]
  | succ n ih =>
    obtain ⟨h1, h2, h3⟩ := ih (by omega)
    have hlt : (run T time n s).swoop_sample_index < 5200 := by omega
    simp only [run]
    rw [alarm_irq_swoop_emit T _ _ h1 hlt]
    simp [spi_part, emit_swoop, h1, h2, h3]

/-- While the chirp segment plays, only its own index and the accumulator move. -/
theorem run_chirp_inv (T : Tables) (time : Nat → Nat) (s : State)
    (hs : s.swoop_or_chirp = 'c') (hi : s.chirp_sample_index = 0) (k : Nat) (hk : k ≤ 5200) :
    (run T time k s).swoop_or_chirp = 'c' ∧
    (run T time k s).chirp_sample_index = k ∧
    (run T time k s).swoop_sample_index = s.swoop_sample_index := by
  induction k with
  | zero => simp [run, hs, hi]
  | succ n ih =>
    obtain ⟨h1, h2, h3⟩ := ih (by omega)
    have hlt : (run T time n s).chirp_sample_index < 5200 := by omega
    simp only [run]
    rw [alarm_irq_chirp_emit T _ _ h1 hlt]
    simp [spi_part, emit_chirp, h1, h2, h3]

theorem run_swoop_phase (T : Tables) (time : Nat → Nat) (s : State)
    (hs : s.swoop_or_chirp = 's') (hi : s.swoop_sample_index = 0)
    (hp : s.phase_accum_main < two32) (k : Nat) (hk : k ≤ 5200) :
    (run T time k s).phase_accum_main =
      (((s.phase_accum_main : Int) + ∑ j in Finset.range k, T.swoop_samples (j : Int))
        % (two32 : Int)).toNat := by
  induction k with
  | zero =>
    simp only [run, Finset.range_zero, Finset.sum_empty, add_zero]
    have : (s.phase_accum_main : Int) % (two32 : Int) = s.phase_accum_main :=
      Int.emod_eq_of_lt (by omega) (by exact_mod_cast hp)
    omega
  | succ n ih =>
    obtain ⟨h1, h2, -⟩ := run_swoop_inv T time s hs hi n (by omega)
    have hlt : (run T time n s).swoop_sample_index < 5200 := by omega
    simp only [run]
    rw [alarm_irq_swoop_emit T _ _ h1 hlt]
    simp only [spi_part, emit_swoop, ih (by omega), h2, phase_add_emod, Finset.sum_range_succ,
      add_assoc]

theorem run_chirp_phase (T : Tables) (time : Nat → Nat) (s : State)
    (hs : s.swoop_or_chirp = 'c') (hi : s.chirp_sample_index = 0)
    (hp : s.phase_accum_main < two32) (k : Nat) (hk : k ≤ 5200) :
    (run T time k s).phase_accum_main =
      (((s.phase_accum_main : Int) + ∑ j in Finset.range k, T.chirp_samples (j : Int))
        % (two32 : Int)).toNat := by
  induction k with
  | zero =>
    simp only [run, Finset.range_zero, Finset.sum_empty, add_zero]
    have : (s.phase_accum_main : Int) % (two32 : Int) = s.phase_accum_main :=
      Int.emod_eq_of_lt (by omega) (by exact_mod_cast hp)
    omega
  | succ n ih =>
    obtain ⟨h1, h2, -⟩ := run_chirp_inv T time s hs hi n (by omega)
    have hlt : (run T time n s).chirp_sample_index < 5200 := by omega
    simp only [run]
    rw [alarm_irq_chirp_emit T _ _ h1 hlt]
    simp only [spi_part, emit_chirp, ih (by omega), h2, phase_add_emod, Finset.sum_range_succ,
      add_assoc]

theorem swoop_tick (T : Tables) (time : Nat → Nat) (s : State)
    (hs : s.swoop_or_chirp = 's') (hi : s.swoop_sample_index = 0) (k : Nat) (hk : k < 5200) :
    (effects T time k s).bus = [(run T time (k + 1) s).DAC_data] ∧
    (effects T time k s).reads =
      [(TableId.swoop_samples, (k : Int)),
       (TableId.sin_table, (((run T time (k + 1) s).phase_accum_main >>> 24 : Nat) : Int)),
       (TableId.ampl_table, (k : Int) + 1)] ∧
    (run T time (k + 1) s).alarm = (time k + DELAY) % two32 := by
  obtain ⟨h1, h2, -⟩ := run_swoop_inv T time s hs hi k (by omega)
  have hlt : (run T time k s).swoop_sample_index < 5200 := by omega
  simp only [effects, run]
  rw [alarm_irq_swoop_emit T _ _ h1 hlt]
  simp [spi_part, emit_swoop, h2]

theorem swoop_transition (T : Tables) (time : Nat → Nat) (s : State)
    (hs : s.swoop_or_chirp = 's') (hi : s.swoop_sample_index = 0) (n : Nat) (hn : n = 5200) :
    (effects T time n s).bus = [] ∧
    (effects T time n s).reads = [] ∧
    (run T time (n + 1) s).swoop_or_chirp = 'c' ∧
    (run T time (n + 1) s).swoop_sample_index = 0 ∧
    (run T time (n + 1) s).chirp_sample_index = s.chirp_sample_index ∧
    (run T time (n + 1) s).phase_accum_main = (run T time n s).phase_accum_main ∧
    (run T time (n + 1) s).alarm = (time n + DELAY) % two32 := by
  obtain ⟨h1, h2, h3⟩ := run_swoop_inv T time s hs hi n (by omega)
  have hge : (5200 : Int) ≤ (run T time n s).swoop_sample_index := by omega
  rw [run_succ T time n s]
  unfold effects
  rw [alarm_irq_swoop_done T _ _ h1 hge]
  simp [h3]

theorem chirp_tick (T : Tables) (time : Nat → Nat) (s : State)
    (hs : s.swoop_or_chirp = 'c') (hi : s.chirp_sample_index = 0) (k : Nat) (hk : k < 5200) :
    (effects T time k s).bus = [(run T time (k + 1) s).DAC_data] ∧
    (effects T time k s).reads =
      [(TableId.chirp_samples, (k : Int)),
       (TableId.sin_table, (((run T time (k + 1) s).phase_accum_main >>> 24 : Nat) : Int)),
       (TableId.ampl_table, (k : Int) + 1)] ∧
    (run T time (k + 1) s).alarm = (time k + DELAY) % two32 := by
  obtain ⟨h1, h2, -⟩ := run_chirp_inv T time s hs hi k (by omega)
  have hlt : (run T time k s).chirp_sample_index < 5200 := by omega
  simp only [effects, run]
  rw [alarm_irq_chirp_emit T _ _ h1 hlt]
  simp [spi_part, emit_chirp, h2]

theorem chirp_transition (T : Tables) (time : Nat → Nat) (s : State)
    (hs : s.swoop_or_chirp = 'c') (hi : s.chirp_sample_index = 0) (n : Nat) (hn : n = 5200) :
    (effects T time n s).bus = [] ∧
    (effects T time n s).reads = [] ∧
    (run T time (n + 1) s).swoop_or_chirp = 's' ∧
    (run T time (n + 1) s).chirp_sample_index = 0 ∧
    (run T time (n + 1) s).swoop_sample_index = s.swoop_sample_index ∧
    (run T time (n + 1) s).phase_accum_main = (run T time n s).phase_accum_main ∧
    (run T time (n + 1) s).alarm = (time n + DELAY + 250000) % two32 := by
  obtain ⟨h1, h2, h3⟩ := run_chirp_inv T time s hs hi n (by omega)
  have hge : (5200 : Int) ≤ (run T time n s).chirp_sample_index := by omega
  rw [run_succ T time n s]
  unfold effects
  rw [alarm_irq_chirp_done T _ _ h1 hge]
  simp [h3, Nat.add_mod]

/-- Every tick other than the chirp-to-swoop transition leaves the alarm at `timerawl + DELAY`. -/
theorem alarm_base_period (T : Tables) (t : Nat) (s : State)
    (h : ¬ (s.swoop_or_chirp = 'c' ∧ 5200 ≤ s.chirp_sample_index)) :
    (alarm_irq T t s).1.alarm = (t + DELAY) % two32 := by
  have hsc : ¬ ('s' : Char) = 'c' := by decide
  by_cases hs : s.swoop_or_chirp = 's'
  · by_cases hi : s.swoop_sample_index < 5200
    · rw [alarm_irq_swoop_emit T t s hs hi]
      simp [spi_part, emit_swoop]
    · rw [alarm_irq_swoop_done T t s hs (by omega)]
  · by_cases hc : s.swoop_or_chirp = 'c'
    · have hi : s.chirp_sample_index < 5200 := by
        by_contra hcon
        exact h ⟨hc, by omega⟩
      rw [alarm_irq_chirp_emit T t s hc hi]
      simp [spi_part, emit_chirp]
    · simp [alarm_irq, chirp_part, spi_part, hs, hc]

/-- Claim C1. From a state with `swoop_or_chirp = 's'` and both indices `0`, each of the
first 5200 ticks writes exactly one word (the new `DAC_data`) to the bus and leaves the
state at `'s'`; the 5201st tick writes nothing, sets the state to `'c'` and resets
`swoop_sample_index` to `0`. -/
theorem C1_swoop_segment_then_transition (T : Tables) (time : Nat → Nat) (s : State)
    (hs : s.swoop_or_chirp = 's') (hi : s.swoop_sample_index = 0)
    (_hc : s.chirp_sample_index = 0) :
    (∀ k, k < 5200 →
      (effects T time k s).bus = [(run T time (k + 1) s).DAC_data] ∧
      (run T time (k + 1) s).swoop_or_chirp = 's') ∧
    (effects T time 5200 s).bus = [] ∧
    (run T time 5201 s).swoop_or_chirp = 'c' ∧
    (run T time 5201 s).swoop_sample_index = 0 := by
  refine ⟨fun k hk => ⟨(swoop_tick T time s hs hi k hk).1,
    (run_swoop_inv T time s hs hi (k + 1) (by omega)).1⟩, ?_⟩
  obtain ⟨h1, -, h3, h4, -⟩ := swoop_transition T time s hs hi 5200 rfl
  exact ⟨h1, h3, h4⟩

/-- Claim C1 at the sample tables, from the reset state. -/
theorem C1_witness :
    (effects T0 time0 0 (init 20)).bus = [(run T0 time0 1 (init 20)).DAC_data] ∧
    (effects T0 time0 5200 (init 20)).bus = [] ∧
    (run T0 time0 5201 (init 20)).swoop_or_chirp = 'c' :=
  ⟨((C1_swoop_segment_then_transition T0 time0 (init 20) rfl rfl rfl).1 0 (by decide)).1,
   (C1_swoop_segment_then_transition T0 time0 (init 20) rfl rfl rfl).2.1,
   (C1_swoop_segment_then_transition T0 time0 (init 20) rfl rfl rfl).2.2.1⟩

theorem chirp_segment (T : Tables) (time : Nat → Nat) (s : State)
    (hs : s.swoop_or_chirp = 'c') (hi : s.chirp_sample_index = 0) :
    (∀ k, k < 5200 →
      (effects T time k s).bus = [(run T time (k + 1) s).DAC_data] ∧
      (run T time (k + 1) s).swoop_or_chirp = 'c') ∧
    (effects T time 5200 s).bus = [] ∧
    (run T time 5201 s).swoop_or_chirp = 's' ∧
    (run T time 5201 s).chirp_sample_index = 0 ∧
    (run T time 5201 s).swoop_sample_index = s.swoop_sample_index ∧
    (run T time 5201 s).alarm = (time 5200 + 20 + 250000) % 2 ^ 32 := by
  refine ⟨fun k hk => ⟨(chirp_tick T time s hs hi k hk).1,
    (run_chirp_inv T time s hs hi (k + 1) (by omega)).1⟩, ?_⟩
  obtain ⟨h1, -, h3, h4, h5, -, h7⟩ := chirp_transition T time s hs hi 5200 rfl
  exact ⟨h1, h3, h4, h5, by simpa [two32, DELAY] using h7⟩

theorem full_cycle (T : Tables) (time : Nat → Nat) (s : State)
    (hs : s.swoop_or_chirp = 's') (hi : s.swoop_sample_index = 0)
    (hc : s.chirp_sample_index = 0) :
    (∀ n, n < 10402 →
      (effects T time n s).bus.length = if n = 5200 ∨ n = 10401 then 0 else 1) ∧
    (run T time 10402 s).swoop_or_chirp = 's' ∧
    (run T time 10402 s).swoop_sample_index = 0 ∧
    (run T time 10402 s).chirp_sample_index = 0 := by
  obtain ⟨t1, -, t3, t4, t5, -⟩ := swoop_transition T time s hs hi 5200 rfl
  rw [hc] at t5
  have hch := chirp_segment T (fun k => time (5201 + k)) (run T time 5201 s) t3 t5
  refine ⟨fun n hn => ?_, ?_⟩
  · by_cases h1 : n < 5200
    · rw [(swoop_tick T time s hs hi n h1).1, if_neg (by omega)]
      rfl
    · by_cases h2 : n = 5200
      · subst h2
        rw [t1]
        rfl
      · obtain ⟨k, rfl⟩ : ∃ k, n = 5201 + k := ⟨n - 5201, by omega⟩
        rw [effects_add]
        by_cases h3 : k < 5200
        · rw [(hch.1 k h3).1, if_neg (by omega)]
          rfl
        · have hk : k = 5200 := by omega
          subst hk
          rw [hch.2.1]
          rfl
  · have e : run T time 10402 s
        = run T (fun k => time (5201 + k)) 5201 (run T time 5201 s) := run_add T time 5201 5201 s
    rw [e]
    exact ⟨hch.2.2.1, hch.2.2.2.2.1.trans t4, hch.2.2.2.1⟩

/-- Claim C2. From a state with `swoop_or_chirp = 'c'` and `chirp_sample_index = 0`, the
first 5200 ticks each write one word and stay in `'c'`; the next tick writes nothing, sets
the state to `'s'`, resets `chirp_sample_index` and leaves the alarm register at
`(timerawl + 20 + 250000) mod 2^32`.  Every tick that is not this transition leaves the
alarm at `(timerawl + 20) mod 2^32`.  From the reset state the cycle is 10402 ticks, of
which exactly the ticks number 5200 and 10401 (from 0) write nothing, and it ends in the
state `'s'` with both indices `0`. -/
theorem C2_chirp_segment_rest_and_cycle (T : Tables) (time : Nat → Nat) :
    (∀ s : State, s.swoop_or_chirp = 'c' → s.chirp_sample_index = 0 →
      (∀ k, k < 5200 →
        (effects T time k s).bus = [(run T time (k + 1) s).DAC_data] ∧
        (run T time (k + 1) s).swoop_or_chirp = 'c') ∧
      (effects T time 5200 s).bus = [] ∧
      (run T time 5201 s).swoop_or_chirp = 's' ∧
      (run T time 5201 s).chirp_sample_index = 0 ∧
      (run T time 5201 s).alarm = (time 5200 + 20 + 250000) % 2 ^ 32) ∧
    (∀ (s : State) (t : Nat), ¬ (s.swoop_or_chirp = 'c' ∧ 5200 ≤ s.chirp_sample_index) →
      (alarm_irq T t s).1.alarm = (t + 20) % 2 ^ 32) ∧
    (∀ s : State, s.swoop_or_chirp = 's' → s.swoop_sample_index = 0 →
      s.chirp_sample_index = 0 →
      (∀ n, n < 10402 →
        (effects T time n s).bus.length = if n = 5200 ∨ n = 10401 then 0 else 1) ∧
      (run T time 10402 s).swoop_or_chirp = 's' ∧
      (run T time 10402 s).swoop_sample_index = 0 ∧
      (run T time 10402 s).chirp_sample_index = 0) := by
  refine ⟨fun s hs hi => ?_, fun s t h => ?_, fun s hs hi hc => full_cycle T time s hs hi hc⟩
  · obtain ⟨h1, h2, h3, h4, -, h6⟩ := chirp_segment T time s hs hi
    exact ⟨h1, h2, h3, h4, h6⟩
  · simpa [two32, DELAY] using alarm_base_period T t s h

/-- Claim C2 at the sample tables. -/
theorem C2_witness :
    (run T0 time0 5201 { init 20 with swoop_or_chirp := 'c' }).alarm =
        (time0 5200 + 20 + 250000) % 2 ^ 32 ∧
    (alarm_irq T0 7 (init 20)).1.alarm = (7 + 20) % 2 ^ 32 ∧
    (run T0 time0 10402 (init 20)).swoop_or_chirp = 's' :=
  ⟨((C2_chirp_segment_rest_and_cycle T0 time0).1
      { init 20 with swoop_or_chirp := 'c' } rfl rfl).2.2.2.2,
   (C2_chirp_segment_rest_and_cycle T0 time0).2.1 (init 20) 7 (by decide),
   ((C2_chirp_segment_rest_and_cycle T0 time0).2.2 (init 20) rfl rfl rfl).2.1⟩

theorem transition_keeps_phase (T : Tables) (t : Nat) (s : State)
    (h : (s.swoop_or_chirp = 's' ∧ 5200 ≤ s.swoop_sample_index) ∨
         (s.swoop_or_chirp = 'c' ∧ 5200 ≤ s.chirp_sample_index)) :
    (alarm_irq T t s).1.phase_accum_main = s.phase_accum_main ∧ (alarm_irq T t s).2.bus = [] := by
  rcases h with ⟨hs, hi⟩ | ⟨hs, hi⟩
  · rw [alarm_irq_swoop_done T t s hs hi]
    exact ⟨rfl, rfl⟩
  · rw [alarm_irq_chirp_done T t s hs hi]
    exact ⟨rfl, rfl⟩

theorem two32_cast : ((two32 : Nat) : Int) = 2 ^ 32 := by norm_num [two32]

theorem emod_toNat_cast (x : Int) : (((x % (two32 : Int)).toNat : Nat) : Int) = x % 2 ^ 32 := by
  rw [Int.toNat_of_nonneg (Int.emod_nonneg _ (by simp [two32])), two32_cast]

/-- Claim C3. After `k ≤ 5200` consecutive sample-emitting ticks of a segment started at
index `0` with accumulator `p`, `phase_accum_main` is `(p + inc[0] + ... + inc[k-1]) mod 2^32`,
for the swoop segment (`inc = swoop_samples`) and for the chirp segment
(`inc = chirp_samples`); from the reset state it is the sum of the consumed increments
`mod 2^32`; and a transition tick leaves the accumulator unchanged.  The entries of the
increment tables may be any `int`. -/
theorem C3_phase_accumulator (T : Tables) (time : Nat → Nat) (s : State) (k : Nat)
    (hk : k ≤ 5200) (hp : s.phase_accum_main < 2 ^ 32) :
    (s.swoop_or_chirp = 's' → s.swoop_sample_index = 0 →
      ((run T time k s).phase_accum_main : Int) =
        ((s.phase_accum_main : Int) + ∑ j in Finset.range k, T.swoop_samples (j : Int))
          % 2 ^ 32) ∧
    (s.swoop_or_chirp = 'c' → s.chirp_sample_index = 0 →
      ((run T time k s).phase_accum_main : Int) =
        ((s.phase_accum_main : Int) + ∑ j in Finset.range k, T.chirp_samples (j : Int))
          % 2 ^ 32) ∧
    (∀ alarm0 : Nat, ((run T time k (init alarm0)).phase_accum_main : Int) =
        (∑ j in Finset.range k, T.swoop_samples (j : Int)) % 2 ^ 32) ∧
    (∀ t : Nat, (s.swoop_or_chirp = 's' ∧ 5200 ≤ s.swoop_sample_index) ∨
        (s.swoop_or_chirp = 'c' ∧ 5200 ≤ s.chirp_sample_index) →
      (alarm_irq T t s).1.phase_accum_main = s.phase_accum_main) := by
  have hp2 : s.phase_accum_main < two32 := by simpa [two32] using hp
  refine ⟨fun hs hi => ?_, fun hs hi => ?_, fun alarm0 => ?_,
    fun t h => (transition_keeps_phase T t s h).1⟩
  · rw [run_swoop_phase T time s hs hi hp2 k hk, emod_toNat_cast]
  · rw [run_chirp_phase T time s hs hi hp2 k hk, emod_toNat_cast]
  · rw [run_swoop_phase T time (init alarm0) rfl rfl (by simp [init, two32]) k hk,
      emod_toNat_cast]
    simp [init]

/-- Claim C3 at the sample tables: three swoop ticks from reset. -/
theorem C3_witness :
    ((run T0 time0 3 (init 20)).phase_accum_main : Int) =
      (∑ j in Finset.range 3, T0.swoop_samples (j : Int)) % 2 ^ 32 :=
  (C3_phase_accumulator T0 time0 (init 20) 3 (by decide) (by decide)).2.2.1 20

theorem inv_step (T : Tables) (t : Nat) (s : State) (h : Inv s) :
    Inv (alarm_irq T t s).1 ∧
    ∀ r ∈ (alarm_irq T t s).2.reads,
      (r.1 ≠ TableId.ampl_table → in_bounds r = true) ∧
      (r.1 = TableId.ampl_table → 1 ≤ r.2 ∧ r.2 ≤ 5200) := by
  obtain ⟨hst, h1, h2, h3, h4⟩ := h
  have hsh : ∀ (p : Nat) (a : Int), (((phase_add p a) >>> 24 : Nat) : Int) < 256 := by
    intro p a
    have := phase_add_lt p a
    rw [Nat.shiftRight_eq_div_pow]
    simp only [two32] at this
    omega
  have hsc : ¬ ('s' : Char) = 'c' := by decide
  rcases hst with hs | hs
  · by_cases hi : s.swoop_sample_index < 5200
    · rw [alarm_irq_swoop_emit T t s hs hi]
      refine ⟨⟨Or.inl hs, ?_, ?_, h3, h4⟩, ?_⟩
      · simp only [spi_part, emit_swoop]; omega
      · simp only [spi_part, emit_swoop]; omega
      · intro r hr
        simp only [spi_part, emit_swoop, List.mem_cons, List.mem_singleton,
          List.not_mem_nil, or_false] at hr
        rcases hr with rfl | rfl | rfl
        · simp [in_bounds, swoop_sample_size, h1, hi]
        · simp [in_bounds, sine_table_size, hsh]
        · simp only [ne_eq, not_true_eq_false, false_implies, true_implies, true_and]
          omega
    · rw [alarm_irq_swoop_done T t s hs (by omega)]
      exact ⟨⟨Or.inr rfl, le_refl _, by norm_num, h3, h4⟩, by simp⟩
  · by_cases hi : s.chirp_sample_index < 5200
    · rw [alarm_irq_chirp_emit T t s hs hi]
      refine ⟨⟨Or.inr hs, h1, h2, ?_, ?_⟩, ?_⟩
      · simp only [spi_part, emit_chirp]; omega
      · simp only [spi_part, emit_chirp]; omega
      · intro r hr
        simp only [spi_part, emit_chirp, List.mem_cons, List.mem_singleton,
          List.not_mem_nil, or_false] at hr
        rcases hr with rfl | rfl | rfl
        · simp [in_bounds, chirp_sample_size, h3, hi]
        · simp [in_bounds, sine_table_size, hsh]
        · simp only [ne_eq, not_true_eq_false, false_implies, true_implies, true_and]
          omega
    · rw [alarm_irq_chirp_done T t s hs (by omega)]
      exact ⟨⟨Or.inl rfl, h1, h2, le_refl _, by norm_num⟩, by simp⟩

theorem inv_run (T : Tables) (time : Nat → Nat) (alarm0 : Nat) (n : Nat) :
    Inv (run T time n (init alarm0)) := by
  induction n with
  | zero => exact ⟨Or.inl rfl, le_refl _, by norm_num [init, run], le_refl _, by norm_num [init, run]⟩
  | succ n ih => exact (inv_step T (time n) _ ih).1

/-- Claim C10. In every state reached from reset, the reads of `swoop_samples`,
`chirp_samples` and `sin_table` made by a tick are inside the arrays, and the index used
to read `ampl_table` lies in `[1, 5200]`; it reaches `5200`, one past the last entry of
`ampl_table[5200]`, on the 5200th tick. -/
theorem C10_ampl_table_read_past_end (T : Tables) (time : Nat → Nat) (alarm0 : Nat) :
    (∀ n, ∀ r ∈ (effects T time n (init alarm0)).reads,
      (r.1 ≠ TableId.ampl_table → in_bounds r = true) ∧
      (r.1 = TableId.ampl_table → 1 ≤ r.2 ∧ r.2 ≤ 5200)) ∧
    (TableId.ampl_table, (5200 : Int)) ∈ (effects T time 5199 (init alarm0)).reads ∧
    in_bounds (TableId.ampl_table, (5200 : Int)) = false := by
  refine ⟨fun n r hr => (inv_step T (time n) _ (inv_run T time alarm0 n)).2 r hr, ?_, by decide⟩
  rw [(swoop_tick T time (init alarm0) rfl rfl 5199 (by norm_num)).2.1]
  simp

end Chirp

/-! ## Theorems: the sequencer of `chirp2.c` -/

namespace Chirp2

theorem song_run_succ (song : Int → Int) (time time2 : Nat → Nat) (n : Nat) (s : State) :
    run song time time2 (n + 1) s =
      (alarm_irq song (time n) (time2 n) (run song time time2 n s)).1 := rfl

theorem song_irq_emit (song : Int → Int) (t t2 : Nat) (s : State)
    (hi : s.song_sample_index < 13400) :
    alarm_irq song t t2 s =
      ({ s with alarm := (t + DELAY) % two32, DAC_data := dac_word (song s.song_sample_index),
                song_sample_index := s.song_sample_index + 1 + 1 },
       { bus := [dac_word (song s.song_sample_index)], reads := [s.song_sample_index] }) := by
  have h : ¬ (13400 ≤ s.song_sample_index) := by omega
  simp [alarm_irq, song_sample_size, swoop_sample_size, pause_sample_size, chirp_sample_size, h]

theorem song_irq_done (song : Int → Int) (t t2 : Nat) (s : State)
    (hi : 13400 ≤ s.song_sample_index) :
    alarm_irq song t t2 s =
      ({ s with song_sample_index := 0, alarm := (t2 + 500000) % two32 },
       { bus := [], reads := [] }) := by
  simp [alarm_irq, song_sample_size, swoop_sample_size, pause_sample_size, chirp_sample_size, hi]

/-- The index advances by two per tick. -/
theorem run_index (song : Int → Int) (time time2 : Nat → Nat) (alarm0 : Nat) (k : Nat)
    (hk : k ≤ 6700) :
    (run song time time2 k (init alarm0)).song_sample_index = 2 * (k : Int) := by
  induction k with
  | zero => rfl
  | succ n ih =>
    have h := ih (by omega)
    rw [song_run_succ, song_irq_emit song _ _ _ (by omega)]
    simp only [h]
    push_cast
    ring

theorem tick_emits (song : Int → Int) (time time2 : Nat → Nat) (alarm0 : Nat) (k : Nat)
    (hk : k < 6700) :
    (effects song time time2 k (init alarm0)).reads = [2 * (k : Int)] ∧
    (effects song time time2 k (init alarm0)).bus = [dac_word (song (2 * (k : Int)))] := by
  have h := run_index song time time2 alarm0 k (by omega)
  unfold effects
  rw [song_irq_emit song _ _ _ (by omega), h]
  exact ⟨rfl, rfl⟩

theorem tick_resets (song : Int → Int) (time time2 : Nat → Nat) (alarm0 : Nat) (n : Nat)
    (hn : n = 6700) :
    (effects song time time2 n (init alarm0)).bus = [] ∧
    (run song time time2 (n + 1) (init alarm0)).song_sample_index = 0 ∧
    (run song time time2 (n + 1) (init alarm0)).alarm = (time2 n + 500000) % 2 ^ 32 := by
  have h := run_index song time time2 alarm0 n (by omega)
  unfold effects
  rw [song_run_succ, song_irq_done song _ _ _ (by omega)]
  exact ⟨rfl, rfl, rfl⟩

/-- Claim C9. From `song_sample_index = 0`, for every `k < 6700` the `(k+1)`-th tick reads
`song_samples[2k]` and writes the word built from it: the index moves by two per tick, so
the odd-numbered samples are never emitted (the second tick emits `song_samples[2]`, not
`song_samples[1]`), and the index is reset with the rest deadline armed on the 6701st tick,
after 6700 of the 13400 samples. -/
theorem C9_index_advances_twice (song : Int → Int) (time time2 : Nat → Nat) (alarm0 : Nat) :
    (∀ k, k < 6700 →
      (effects song time time2 k (init alarm0)).reads = [2 * (k : Int)] ∧
      (effects song time time2 k (init alarm0)).bus = [dac_word (song (2 * (k : Int)))]) ∧
    (effects song time time2 6700 (init alarm0)).bus = [] ∧
    (run song time time2 6701 (init alarm0)).song_sample_index = 0 ∧
    (run song time time2 6701 (init alarm0)).alarm = (time2 6700 + 500000) % 2 ^ 32 :=
  ⟨fun k hk => tick_emits song time time2 alarm0 k hk,
   tick_resets song time time2 alarm0 6700 rfl⟩

/-- Claim C9 at the second tick, on the buffer holding `i` at index `i`. -/
theorem C9_witness :
    (effects song0 time0 time0 1 (init 20)).bus = [dac_word (song0 (2 * ((1 : Nat) : Int)))] ∧
    dac_word (song0 (2 * ((1 : Nat) : Int))) = 0x3002 ∧ dac_word (song0 1) = 0x3001 :=
  ⟨((C9_index_advances_twice song0 time0 time0 20).1 1 (by decide)).2, by decide, by decide⟩

end Chirp2

/-! ## Theorems: the DAC word of `chirp.c` -/

namespace Chirp

open Float64

theorem dac_bits (m : ℤ) (h0 : 0 ≤ m) (h1 : m ≤ 4095) :
    ((Int.lor DAC_config_chan_A (Int.land m 0xffff)) % 65536).toNat = 0x3000 + m.toNat := by
  obtain ⟨a, rfl⟩ := Int.eq_ofNat_of_zero_le h0
  have ha : a ≤ 4095 := by omega
  have e1 : Int.land (a : ℤ) 0xffff = ((a &&& 65535 : ℕ) : ℤ) := rfl
  have e2 : ∀ x : ℕ, Int.lor DAC_config_chan_A (x : ℤ) = ((12288 ||| x : ℕ) : ℤ) := fun _ => rfl
  have e3 : a &&& 65535 = a := by
    have := Nat.and_pow_two_sub_one_eq_mod a 16
    norm_num at this
    rw [this]
    omega
  have e4 : 12288 ||| a = 12288 + a := by
    have := Nat.mul_add_lt_is_or (i := 12) (b := a) (by norm_num; omega) 3
    norm_num at this
    omega
  rw [e1, e2, e3, e4]
  simp only [Int.toNat_ofNat]
  omega

theorem magnitude_range (raw : Int) (e : ℚ) (hr : -2047 ≤ raw) (hr' : raw ≤ 2047)
    (he : 0 ≤ e) (he' : e ≤ 1) : 0 ≤ magnitude raw e ∧ magnitude raw e ≤ 4095 := by
  have h1 : (0 : ℚ) ≤ ((raw + 2048 : ℤ) : ℚ) := by exact_mod_cast (by omega : (0 : ℤ) ≤ raw + 2048)
  have h2 : ((raw + 2048 : ℤ) : ℚ) ≤ 4095 := by exact_mod_cast (by omega : raw + 2048 ≤ 4095)
  have hq0 : 0 ≤ ((raw + 2048 : ℤ) : ℚ) * e := mul_nonneg h1 he
  have hq1 : ((raw + 2048 : ℤ) : ℚ) * e ≤ 4095 := by nlinarith
  have habs : |((raw + 2048 : ℤ) : ℚ) * e| ≤ 2 ^ (52 : ℤ) := by
    rw [abs_of_nonneg hq0]
    exact hq1.trans (by norm_num)
  have r0 : 0 ≤ mulD ((raw + 2048 : ℤ) : ℚ) e := roundD_nonneg hq0
  have r1 : mulD ((raw + 2048 : ℤ) : ℚ) e ≤ ((4095 : ℤ) : ℚ) :=
    roundD_le_int habs (by exact_mod_cast hq1)
  unfold magnitude toInt
  rw [if_pos r0]
  constructor
  · exact Int.floor_nonneg.mpr r0
  · have := Int.floor_le (mulD ((raw + 2048 : ℤ) : ℚ) e)
    exact_mod_cast this.trans r1

theorem dac_word_eq (raw : Int) (e : ℚ) (hr : -2047 ≤ raw) (hr' : raw ≤ 2047)
    (he : 0 ≤ e) (he' : e ≤ 1) : dac_word raw e = 0x3000 + (magnitude raw e).toNat := by
  obtain ⟨h0, h1⟩ := magnitude_range raw e hr hr' he he'
  exact dac_bits _ h0 h1

/-- A sample-emitting tick reads one sine entry and one envelope entry and writes the word
built from them. -/
theorem emit_word (T : Tables) (t : Nat) (s : State)
    (hemit : (s.swoop_or_chirp = 's' ∧ s.swoop_sample_index < 5200) ∨
             (s.swoop_or_chirp = 'c' ∧ s.chirp_sample_index < 5200)) :
    ∃ i j, (TableId.sin_table, i) ∈ (alarm_irq T t s).2.reads ∧
      (TableId.ampl_table, j) ∈ (alarm_irq T t s).2.reads ∧
      (alarm_irq T t s).2.bus = [dac_word (T.sin_table i) (T.ampl_table j)] := by
  rcases hemit with ⟨hs, hi⟩ | ⟨hs, hi⟩
  · rw [alarm_irq_swoop_emit T t s hs hi]
    exact ⟨_, _, by simp [spi_part, emit_swoop], by simp [spi_part, emit_swoop], rfl⟩
  · rw [alarm_irq_chirp_emit T t s hs hi]
    exact ⟨_, _, by simp [spi_part, emit_chirp], by simp [spi_part, emit_chirp], rfl⟩

theorem low_bits (m : ℕ) (hm : m ≤ 4095) :
    (0x3000 + m) >>> 12 = 0b0011 ∧ (0x3000 + m) &&& 0xFFF = m ∧
    0x3000 ||| (m &&& 0xFFF) = 0x3000 + m := by
  have e1 : ∀ x : ℕ, x &&& 0xFFF = x % 4096 := by
    intro x
    have := Nat.and_pow_two_sub_one_eq_mod x 12
    norm_num at this
    exact this
  have e4 : 12288 ||| m = 12288 + m := by
    have := Nat.mul_add_lt_is_or (i := 12) (b := m) (by norm_num; omega) 3
    norm_num at this
    omega
  refine ⟨?_, ?_, ?_⟩
  · rw [Nat.shiftRight_eq_div_pow]
    omega
  · rw [e1]
    omega
  · rw [e1, Nat.mod_eq_of_lt (by omega)]
    exact e4

/-- Claim C4, amended. On a sample-emitting tick that reads a sine entry `raw` in
`[-2047, 2047]` and an envelope entry `e` in `[0, 1]`, the word written is
`0x3000 | (trunc((raw + 2048) * e) & 0xFFF)`, where the product is the `double` product and
`trunc` is the conversion `(int)`, truncation toward zero. -/
theorem C4_dac_word_truncates (T : Tables) (t : Nat) (s : State)
    (hemit : (s.swoop_or_chirp = 's' ∧ s.swoop_sample_index < 5200) ∨
             (s.swoop_or_chirp = 'c' ∧ s.chirp_sample_index < 5200))
    (hraw : ∀ i, (TableId.sin_table, i) ∈ (alarm_irq T t s).2.reads →
      -2047 ≤ T.sin_table i ∧ T.sin_table i ≤ 2047)
    (henv : ∀ j, (TableId.ampl_table, j) ∈ (alarm_irq T t s).2.reads →
      0 ≤ T.ampl_table j ∧ T.ampl_table j ≤ 1) :
    ∃ i j, (TableId.sin_table, i) ∈ (alarm_irq T t s).2.reads ∧
      (TableId.ampl_table, j) ∈ (alarm_irq T t s).2.reads ∧
      (alarm_irq T t s).2.bus =
        [0x3000 ||| ((toInt (mulD ((T.sin_table i + 2048 : ℤ) : ℚ) (T.ampl_table j))).toNat
          &&& 0xFFF)] := by
  obtain ⟨i, j, hi, hj, hb⟩ := emit_word T t s hemit
  refine ⟨i, j, hi, hj, ?_⟩
  obtain ⟨r0, r1⟩ := hraw i hi
  obtain ⟨e0, e1⟩ := henv j hj
  obtain ⟨m0, m1⟩ := magnitude_range _ _ r0 r1 e0 e1
  rw [hb, dac_word_eq _ _ r0 r1 e0 e1]
  have hm : (magnitude (T.sin_table i) (T.ampl_table j)).toNat ≤ 4095 := by omega
  rw [← (low_bits _ hm).2.2]
  rfl

/-- Claim C5. On a sample-emitting tick that reads a sine entry in `[-2047, 2047]` and an
envelope entry in `[0, 1]`, the magnitude `(int)((raw + 2048) * e)` lies in `[0, 4095]`,
and the word written has bits `[15:12]` equal to `0b0011` and bits `[11:0]` equal to the
magnitude. -/
theorem C5_control_nibble_kept (T : Tables) (t : Nat) (s : State)
    (hemit : (s.swoop_or_chirp = 's' ∧ s.swoop_sample_index < 5200) ∨
             (s.swoop_or_chirp = 'c' ∧ s.chirp_sample_index < 5200))
    (hraw : ∀ i, (TableId.sin_table, i) ∈ (alarm_irq T t s).2.reads →
      -2047 ≤ T.sin_table i ∧ T.sin_table i ≤ 2047)
    (henv : ∀ j, (TableId.ampl_table, j) ∈ (alarm_irq T t s).2.reads →
      0 ≤ T.ampl_table j ∧ T.ampl_table j ≤ 1) :
    ∃ i j w, (TableId.sin_table, i) ∈ (alarm_irq T t s).2.reads ∧
      (TableId.ampl_table, j) ∈ (alarm_irq T t s).2.reads ∧
      (alarm_irq T t s).2.bus = [w] ∧
      0 ≤ magnitude (T.sin_table i) (T.ampl_table j) ∧
      magnitude (T.sin_table i) (T.ampl_table j) ≤ 4095 ∧
      w >>> 12 = 0b0011 ∧
      ((w &&& 0xFFF : ℕ) : ℤ) = magnitude (T.sin_table i) (T.ampl_table j) := by
  obtain ⟨i, j, hi, hj, hb⟩ := emit_word T t s hemit
  obtain ⟨r0, r1⟩ := hraw i hi
  obtain ⟨e0, e1⟩ := henv j hj
  obtain ⟨m0, m1⟩ := magnitude_range _ _ r0 r1 e0 e1
  have hm : (magnitude (T.sin_table i) (T.ampl_table j)).toNat ≤ 4095 := by omega
  refine ⟨i, j, _, hi, hj, hb, m0, m1, ?_, ?_⟩
  · rw [dac_word_eq _ _ r0 r1 e0 e1]
    exact (low_bits _ hm).1
  · rw [dac_word_eq _ _ r0 r1 e0 e1, (low_bits _ hm).2.1]
    exact Int.toNat_of_nonneg m0

/-- The example of the specification: `raw = 1000`, `e = 0.5` gives the magnitude `1524`. -/
theorem magnitude_example : magnitude 1000 (1 / 2) = 1524 := by
  have h : ((1000 + 2048 : ℤ) : ℚ) * (1 / 2) = ((1524 : ℤ) : ℚ) := by norm_num
  unfold magnitude mulD
  rw [h, roundD_intCast _ (by norm_num)]
  simp [toInt]

/-- Claim C4 at the sample tables (`raw = 1000`, `e = 0.5`): the word is `0x3000 | 1524`. -/
theorem C4_witness :
    (alarm_irq T0 0 (init 20)).2.bus = [0x3000 ||| (1524 &&& 0xFFF)] := by
  obtain ⟨i, j, -, -, h⟩ := C4_dac_word_truncates T0 0 (init 20) (Or.inl ⟨rfl, by decide⟩)
    (fun _ _ => by simp [T0]) (fun _ _ => by norm_num [T0])
  have e : toInt (mulD ((T0.sin_table i + 2048 : ℤ) : ℚ) (T0.ampl_table j)) = 1524 :=
    magnitude_example
  rw [h, e]
  rfl

/-- Claim C5 at the sample tables, first tick from reset. -/
theorem C5_witness :
    ∃ i j w, (TableId.sin_table, i) ∈ (alarm_irq T0 0 (init 20)).2.reads ∧
      (TableId.ampl_table, j) ∈ (alarm_irq T0 0 (init 20)).2.reads ∧
      (alarm_irq T0 0 (init 20)).2.bus = [w] ∧
      0 ≤ magnitude (T0.sin_table i) (T0.ampl_table j) ∧
      magnitude (T0.sin_table i) (T0.ampl_table j) ≤ 4095 ∧
      w >>> 12 = 0b0011 ∧
      ((w &&& 0xFFF : ℕ) : ℤ) = magnitude (T0.sin_table i) (T0.ampl_table j) :=
  C5_control_nibble_kept T0 0 (init 20) (Or.inl ⟨rfl, by decide⟩)
    (fun _ _ => by simp [T0]) (fun _ _ => by norm_num [T0])

/-- The entry `ampl_table[20]` is the double nearest to `0.02`. -/
theorem ampl_table_20 :
    1 / 50 - 1 / 10 ^ 15 ≤ ampl_table 20 ∧ ampl_table 20 ≤ 1 / 50 + 1 / 10 ^ 15 := by
  have h : ampl_table 20 = roundD (1 / 50) := by
    unfold ampl_table divD
    norm_num
  rw [h]
  exact roundD_near (1 / 50) 0 (1 / 10 ^ 15) (by norm_num) (by norm_num [abs_of_nonneg])
    (by norm_num)

/-- Claim C4, counterexample. With the sine entry `0` (which is `sin_table[0]`) and the
envelope entry `ampl_table[20]`, the double `0.02`, the product is `40.96`: the code writes
`0x3000 | 40`, the formula with `round` gives `0x3000 | 41`. -/
theorem C4_counterexample :
    dac_word 0 (ampl_table 20) = 0x3000 ||| 40 ∧
    0x3000 ||| ((roundNearest (((0 + 2048 : ℤ) : ℚ) * ampl_table 20)).toNat &&& 0xFFF)
      = 0x3000 ||| 41 ∧
    dac_word 0 (ampl_table 20) ≠
      0x3000 ||| ((roundNearest (((0 + 2048 : ℤ) : ℚ) * ampl_table 20)).toNat &&& 0xFFF) := by
  obtain ⟨he0, he1⟩ := ampl_table_20
  have hc : ((0 + 2048 : ℤ) : ℚ) = 2048 := by norm_num
  rw [hc]
  have hq0 : (4095 / 100 : ℚ) ≤ 2048 * ampl_table 20 := by linarith
  have hq1 : 2048 * ampl_table 20 ≤ 4097 / 100 := by linarith
  obtain ⟨hr0, hr1⟩ := roundD_near (2048 * ampl_table 20) 6 (1 / 10 ^ 12) (by norm_num)
    (by rw [abs_of_nonneg (by linarith)]; exact hq1.trans (by norm_num)) (by norm_num)
  have hm : magnitude 0 (ampl_table 20) = 40 := by
    unfold magnitude mulD toInt
    rw [hc, if_pos (by linarith), Int.floor_eq_iff]
    constructor
    · push_cast; linarith
    · push_cast; linarith
  have hn : roundNearest (2048 * ampl_table 20) = 41 := by
    unfold roundNearest
    rw [if_pos (by linarith), Int.floor_eq_iff]
    constructor
    · push_cast; linarith
    · push_cast; linarith
  have hw : dac_word 0 (ampl_table 20) = 0x3000 ||| 40 := by
    unfold dac_word
    rw [hm]
    decide
  refine ⟨hw, ?_, ?_⟩
  · rw [hn]
    decide
  · rw [hw, hn]
    decide

end Chirp

/-! ## Theorems: the amplitude envelopes -/

namespace Chirp

open Float64

theorem ampl_rise (i : ℤ) (h0 : 0 ≤ i) (h1 : i < 1000) :
    ampl_table i = roundD ((i : ℚ) / 1000) ∧
    (i : ℚ) / 1000 - 1 / 10 ^ 15 ≤ ampl_table i ∧ ampl_table i ≤ (i : ℚ) / 1000 + 1 / 10 ^ 15 ∧
    0 ≤ ampl_table i ∧ ampl_table i ≤ 1 := by
  have e : ampl_table i = roundD ((i : ℚ) / 1000) := by
    unfold ampl_table divD
    rw [if_pos h1]
  have hi0 : (0 : ℚ) ≤ i := by exact_mod_cast h0
  have hi1 : (i : ℚ) ≤ 1000 := by exact_mod_cast h1.le
  have hq0 : (0 : ℚ) ≤ (i : ℚ) / 1000 := by positivity
  have hq1 : (i : ℚ) / 1000 ≤ 1 := by
    rw [div_le_one (by norm_num)]
    exact hi1
  have habs : |(i : ℚ) / 1000| ≤ 1 := by rwa [abs_of_nonneg hq0]
  obtain ⟨n0, n1⟩ := roundD_near ((i : ℚ) / 1000) 0 (1 / 10 ^ 15) (by norm_num)
    (by simpa using habs) (by norm_num)
  rw [e]
  refine ⟨rfl, n0, n1, roundD_nonneg hq0, ?_⟩
  have := roundD_le_int (q := (i : ℚ) / 1000) (n := 1) (habs.trans (by norm_num))
    (by exact_mod_cast hq1)
  exact_mod_cast this

theorem ampl_hold (i : ℤ) (h0 : 1000 ≤ i) (h1 : i < 4200) : ampl_table i = 1 := by
  unfold ampl_table
  rw [if_neg (by omega), if_pos (by simp only [swoop_sample_size]; omega)]

theorem ampl_fall (i : ℤ) (h0 : 4200 ≤ i) (h1 : i < 5200) :
    1 - ((i : ℚ) - 4200) / 1000 - 2 / 10 ^ 15 ≤ ampl_table i ∧
    ampl_table i ≤ 1 - ((i : ℚ) - 4200) / 1000 + 2 / 10 ^ 15 ∧
    0 ≤ ampl_table i ∧ ampl_table i ≤ 1 := by
  have e : ampl_table i = roundD (1 - roundD (((i : ℚ) - 4200) / 1000)) := by
    unfold ampl_table subD divD
    rw [if_neg (by omega), if_neg (by simp only [swoop_sample_size]; omega)]
    simp only [swoop_sample_size]
    congr 3
    push_cast
    ring
  have hi0 : (4200 : ℚ) ≤ i := by exact_mod_cast h0
  have hi1 : (i : ℚ) ≤ 5200 := by exact_mod_cast h1.le
  have hq0 : (0 : ℚ) ≤ ((i : ℚ) - 4200) / 1000 := by
    apply div_nonneg <;> linarith
  have hq1 : ((i : ℚ) - 4200) / 1000 ≤ 1 := by
    rw [div_le_one (by norm_num)]
    linarith
  have habs : |((i : ℚ) - 4200) / 1000| ≤ 1 := by rwa [abs_of_nonneg hq0]
  obtain ⟨n0, n1⟩ := roundD_near (((i : ℚ) - 4200) / 1000) 0 (1 / 10 ^ 15) (by norm_num)
    (by simpa using habs) (by norm_num)
  have y0 : 0 ≤ roundD (((i : ℚ) - 4200) / 1000) := roundD_nonneg hq0
  have y1 : roundD (((i : ℚ) - 4200) / 1000) ≤ 1 := by
    have := roundD_le_int (q := ((i : ℚ) - 4200) / 1000) (n := 1) (habs.trans (by norm_num))
      (by exact_mod_cast hq1)
    exact_mod_cast this
  have habs2 : |1 - roundD (((i : ℚ) - 4200) / 1000)| ≤ 1 := by
    rw [abs_of_nonneg (by linarith)]
    linarith
  obtain ⟨m0, m1⟩ := roundD_near (1 - roundD (((i : ℚ) - 4200) / 1000)) 0 (1 / 10 ^ 15)
    (by norm_num) (by simpa using habs2) (by norm_num)
  rw [e]
  refine ⟨by linarith, by linarith, roundD_nonneg (by linarith), ?_⟩
  have := roundD_le_int (q := 1 - roundD (((i : ℚ) - 4200) / 1000)) (n := 1)
    (habs2.trans (by norm_num)) (by push_cast; linarith)
  exact_mod_cast this

theorem ampl_unit_interval (i : ℤ) (h0 : 0 ≤ i) (h1 : i < 5200) :
    0 ≤ ampl_table i ∧ ampl_table i ≤ 1 := by
  by_cases ha : i < 1000
  · exact (ampl_rise i h0 ha).2.2.2
  · by_cases hb : i < 4200
    · rw [ampl_hold i (by omega) hb]
      norm_num
    · exact (ampl_fall i (by omega) h1).2.2

/-- The last entry is the double `1.0 - 0.999`. -/
theorem ampl_table_last : ampl_table 5199 = 9007199254741 / 2 ^ 53 := by
  have e : ampl_table 5199 = roundD (1 - roundD (999 / 1000)) := by
    unfold ampl_table subD divD
    simp only [swoop_sample_size]
    norm_num
  have e1 : roundD (999 / 1000) = 8998192055486251 / 2 ^ 53 := by
    rw [roundD_eq (999 / 1000) (-1) 8998192055486251 (by norm_num)
      (by norm_num [abs_of_nonneg]) (by norm_num [abs_of_nonneg]) (by norm_num [abs_lt])]
    norm_num
  have e2 : roundD (1 - 8998192055486251 / 2 ^ 53) = 9007199254741 / 2 ^ 53 := by
    rw [roundD_eq (1 - 8998192055486251 / 2 ^ 53) (-10) 4611686018427392 (by norm_num)
      (by norm_num [abs_of_nonneg]) (by norm_num [abs_of_nonneg]) (by norm_num [abs_lt])]
    norm_num
  rw [e, e1, e2]

/-- Claim C7. In the table `ampl_table` of `chirp.c` (5200 entries, ramps of 1000):
`ampl_table[0] = 0` and the entries increase strictly over `i < 1000`; the entries with
`1000 ≤ i < 4200` are `1.0`; the entries decrease strictly over `4200 ≤ i < 5200`, the
smallest of them being the last one, `ampl_table[5199]`, which is the double
`1.0 - 0.999 = 9007199254741 / 2^53`, within `10^-18` of `1/1000`. -/
theorem C7_envelope_shape :
    ampl_table 0 = 0 ∧
    (∀ i j : ℤ, 0 ≤ i → i < j → j < 1000 → ampl_table i < ampl_table j) ∧
    (∀ i : ℤ, 1000 ≤ i → i < 4200 → ampl_table i = 1) ∧
    (∀ i j : ℤ, 4200 ≤ i → i < j → j < 5200 → ampl_table j < ampl_table i) ∧
    (∀ i : ℤ, 4200 ≤ i → i < 5199 → ampl_table 5199 < ampl_table i) ∧
    ampl_table 5199 = 9007199254741 / 2 ^ 53 ∧
    |ampl_table 5199 - 1 / 1000| ≤ 1 / 10 ^ 18 := by
  refine ⟨?_, ?_, ampl_hold, ?_, ?_, ampl_table_last, ?_⟩
  · rw [(ampl_rise 0 (by norm_num) (by norm_num)).1]
    simpa using roundD_zero
  · intro i j h0 hij hj
    obtain ⟨-, -, hi1, -⟩ := ampl_rise i h0 (by omega)
    obtain ⟨-, hj0, -⟩ := ampl_rise j (by omega) hj
    have : (i : ℚ) + 1 ≤ j := by exact_mod_cast (by omega : i + 1 ≤ j)
    linarith
  · intro i j h0 hij hj
    obtain ⟨hi0, -⟩ := ampl_fall i h0 (by omega)
    obtain ⟨-, hj1, -⟩ := ampl_fall j (by omega) hj
    have : (i : ℚ) + 1 ≤ j := by exact_mod_cast (by omega : i + 1 ≤ j)
    linarith
  · intro i h0 hi
    obtain ⟨hi0, -⟩ := ampl_fall i h0 (by omega)
    obtain ⟨-, hj1, -⟩ := ampl_fall 5199 (by norm_num) (by norm_num)
    have : (i : ℚ) + 1 ≤ 5199 := by exact_mod_cast (by omega : i + 1 ≤ 5199)
    push_cast at hj1
    linarith
  · rw [ampl_table_last, abs_le]
    constructor <;> norm_num

end Chirp

namespace Chirp2

open Float64

theorem ampl_ramp_offset (i : ℤ) (h0 : 9200 ≤ i) (h1 : i < 10200) : 9 ≤ ampl_table i := by
  have e : ampl_table i = roundD ((i : ℚ) / 1000) := by
    unfold ampl_table divD
    simp only [swoop_sample_size, pause_sample_size]
    rw [if_neg (by omega), if_neg (by omega), if_pos (by omega)]
  have hi0 : (9200 : ℚ) ≤ i := by exact_mod_cast h0
  have hi1 : (i : ℚ) ≤ 10200 := by exact_mod_cast h1.le
  have hq0 : (9 : ℚ) ≤ (i : ℚ) / 1000 := by
    rw [le_div_iff₀ (by norm_num)]
    linarith
  have hq1 : (i : ℚ) / 1000 ≤ 11 := by
    rw [div_le_iff₀ (by norm_num)]
    linarith
  have habs : |(i : ℚ) / 1000| ≤ 2 ^ (52 : ℤ) := by
    rw [abs_of_nonneg (by linarith)]
    exact hq1.trans (by norm_num)
  rw [e]
  have := int_le_roundD (q := (i : ℚ) / 1000) (n := 9) habs (by exact_mod_cast hq0)
  exact_mod_cast this

/-- Claim C8. The table `ampl_table` of `chirp.c` stays in `[0, 1]`, but the one of
`chirp2.c` does not: the rising ramp of its chirp region stores `ii / 1000` with the
song-relative index `ii`, so that every entry with `9200 ≤ i < 10200` is at least `9`;
the first of them, `ampl_table[9200]`, is the double `9.2 = 2589569785738035 / 2^48`. -/
theorem C8_chirp2_envelope_leaves_unit_interval :
    (∀ i : ℤ, 0 ≤ i → i < 5200 → 0 ≤ Chirp.ampl_table i ∧ Chirp.ampl_table i ≤ 1) ∧
    ampl_table 9200 = 2589569785738035 / 2 ^ 48 ∧
    (∀ i : ℤ, 9200 ≤ i → i < 10200 → 9 ≤ ampl_table i) ∧
    ¬ (ampl_table 9200 ≤ 1) := by
  refine ⟨Chirp.ampl_unit_interval, ?_, ampl_ramp_offset, ?_⟩
  · have e : ampl_table 9200 = roundD (46 / 5) := by
      unfold ampl_table divD
      simp only [swoop_sample_size, pause_sample_size]
      norm_num
    rw [e, roundD_eq (46 / 5) 3 5179139571476070 (by norm_num)
      (by norm_num [abs_of_nonneg]) (by norm_num [abs_of_nonneg]) (by norm_num [abs_lt])]
    norm_num
  · have := ampl_ramp_offset 9200 (by norm_num) (by norm_num)
    intro h
    linarith

end Chirp2

/-! ## Theorems: the sine table -/

namespace Chirp

open Float64

theorem sin_arg_near (i : ℤ) (h0 : 0 ≤ i) (h1 : i < 256) :
    (i : ℚ) * (6283 / 1000) / 256 - 1 / 10 ^ 12 ≤ sin_arg i ∧
    sin_arg i ≤ (i : ℚ) * (6283 / 1000) / 256 + 1 / 10 ^ 12 := by
  have hi0 : (0 : ℚ) ≤ i := by exact_mod_cast h0
  have hi1 : (i : ℚ) ≤ 256 := by exact_mod_cast h1.le
  obtain ⟨c0, c1⟩ := roundD_near (6283 / 1000) 3 (1 / 10 ^ 15) (by norm_num)
    (by norm_num [abs_of_nonneg]) (by norm_num)
  set c := roundD (6283 / 1000) with hc
  have hp0 : 0 ≤ (i : ℚ) * c := mul_nonneg hi0 (by linarith)
  have hp7 : (i : ℚ) * c ≤ 256 * 7 := mul_le_mul hi1 (by linarith) (by linarith) (by norm_num)
  have hp1 : (i : ℚ) * c ≤ 2 ^ (11 : ℤ) := hp7.trans (by norm_num)
  obtain ⟨p0, p1⟩ := roundD_near ((i : ℚ) * c) 11 (1 / 10 ^ 12) (by norm_num)
    (by rwa [abs_of_nonneg hp0]) (by norm_num)
  set p := roundD ((i : ℚ) * c) with hp
  have hpn : 0 ≤ p := roundD_nonneg hp0
  have hq0 : 0 ≤ p / 256 := by positivity
  have hq1 : p / 256 ≤ 2 ^ (3 : ℤ) := by
    rw [div_le_iff₀ (by norm_num)]
    norm_num
    linarith
  obtain ⟨q0, q1⟩ := roundD_near (p / 256) 3 (1 / 10 ^ 15) (by norm_num)
    (by rwa [abs_of_nonneg hq0]) (by norm_num)
  have e : sin_arg i = roundD (p / 256) := by
    unfold sin_arg divD mulD
    simp only [sine_table_size]
    norm_num
  rw [e]
  have hic0 : (i : ℚ) * (6283 / 1000) - 256 / 10 ^ 15 ≤ (i : ℚ) * c := by nlinarith
  have hic1 : (i : ℚ) * c ≤ (i : ℚ) * (6283 / 1000) + 256 / 10 ^ 15 := by nlinarith
  constructor
  · have : (i : ℚ) * (6283 / 1000) / 256 - (256 / 10 ^ 15 + 1 / 10 ^ 12) / 256 ≤ p / 256 := by
      rw [← sub_div]
      apply div_le_div_of_nonneg_right _ (by norm_num)
      linarith
    linarith
  · have : p / 256 ≤ (i : ℚ) * (6283 / 1000) / 256 + (256 / 10 ^ 15 + 1 / 10 ^ 12) / 256 := by
      rw [← add_div]
      apply div_le_div_of_nonneg_right _ (by norm_num)
      linarith
    linarith

theorem toInt_near (y : ℚ) : |((toInt y : ℤ) : ℚ) - y| < 1 := by
  unfold toInt
  split_ifs with h
  · have h1 := Int.floor_le y
    have h2 := Int.lt_floor_add_one y
    rw [abs_lt]
    constructor <;> linarith
  · have h1 := Int.le_ceil y
    have h2 := Int.ceil_lt_add_one y
    rw [abs_lt]
    constructor <;> linarith

theorem sin_lipschitz (a b : ℝ) : |Real.sin a - Real.sin b| ≤ |a - b| := by
  rw [Real.sin_sub_sin, abs_mul, abs_mul]
  have h1 : |Real.sin ((a - b) / 2)| ≤ |(a - b) / 2| := Real.abs_sin_le_abs
  have h2 : |Real.cos ((a + b) / 2)| ≤ 1 := Real.abs_cos_le_one _
  have h3 : |(a - b) / 2| = |a - b| / 2 := by rw [abs_div]; norm_num
  have h4 : (0 : ℝ) ≤ |Real.sin ((a - b) / 2)| := abs_nonneg _
  have h5 : (0 : ℝ) ≤ |Real.cos ((a + b) / 2)| := abs_nonneg _
  have h6 : |(2 : ℝ)| = 2 := by norm_num
  rw [h6]
  nlinarith

/-- Bounds on `2047 * sin u` for `u` near `3 * 2π / 256`. -/
theorem sin_window (u : ℝ) (h0 : 736 / 10000 ≤ u) (h1 : u ≤ 737 / 10000) :
    15051 / 100 ≤ 2047 * Real.sin u ∧ 2047 * Real.sin u ≤ 15087 / 100 := by
  have hu0 : 0 ≤ u := by linarith
  have habs : |u| ≤ 1 := by rw [abs_of_nonneg hu0]; linarith
  have hb := abs_le.mp (Real.sin_bound habs)
  rw [abs_of_nonneg hu0] at hb
  have hle : Real.sin u ≤ u := Real.sin_le hu0
  have h3 : u ^ 3 ≤ (737 / 10000) ^ 3 := pow_le_pow_left₀ hu0 h1 3
  have h4 : u ^ 4 ≤ (737 / 10000) ^ 4 := pow_le_pow_left₀ hu0 h1 4
  constructor
  · have : u - u ^ 3 / 6 - u ^ 4 * (5 / 96) ≤ Real.sin u := by linarith [hb.1]
    have h3' : ((737 : ℝ) / 10000) ^ 3 ≤ 41 / 100000 := by norm_num
    have h4' : ((737 : ℝ) / 10000) ^ 4 ≤ 3 / 100000 := by norm_num
    linarith
  · linarith

/-- The double `2047 * sin(x)` computed with a library sine that is within `10^-6` of the
true sine at `x` is within `1/400` of `2047 * sin x`. -/
theorem scaled_sin_near (sinD : ℚ → ℚ) (x : ℚ)
    (hacc : |((sinD x : ℚ) : ℝ) - Real.sin (x : ℝ)| ≤ 1 / 10 ^ 6) :
    |((mulD 2047 (sinD x) : ℚ) : ℝ) - 2047 * Real.sin (x : ℝ)| ≤ 1 / 400 := by
  have ha := abs_le.mp hacc
  have hs := abs_le.mp (Real.abs_sin_le_one (x : ℝ))
  have hs0 : (-(1 + 1 / 10 ^ 6 : ℚ) : ℝ) ≤ ((sinD x : ℚ) : ℝ) := by
    push_cast
    linarith [ha.1, hs.1]
  have hs1 : ((sinD x : ℚ) : ℝ) ≤ ((1 + 1 / 10 ^ 6 : ℚ) : ℝ) := by
    push_cast
    linarith [ha.2, hs.2]
  have hq0 : -(1 + 1 / 10 ^ 6 : ℚ) ≤ sinD x := by exact_mod_cast hs0
  have hq1 : sinD x ≤ (1 + 1 / 10 ^ 6 : ℚ) := by exact_mod_cast hs1
  have habs : |2047 * sinD x| ≤ 2 ^ (11 : ℤ) := by
    rw [abs_le]
    constructor
    · norm_num
      linarith
    · norm_num
      linarith
  obtain ⟨r0, r1⟩ := roundD_near (2047 * sinD x) 11 (1 / 10 ^ 12) (by norm_num) habs
    (by norm_num)
  have r0' : ((2047 * sinD x - 1 / 10 ^ 12 : ℚ) : ℝ) ≤ ((roundD (2047 * sinD x) : ℚ) : ℝ) := by
    exact_mod_cast r0
  have r1' : ((roundD (2047 * sinD x) : ℚ) : ℝ) ≤ ((2047 * sinD x + 1 / 10 ^ 12 : ℚ) : ℝ) := by
    exact_mod_cast r1
  push_cast at r0' r1'
  unfold mulD
  rw [abs_le]
  constructor <;> linarith [ha.1, ha.2]

theorem sin_table_three (sinD : ℚ → ℚ)
    (hacc : |((sinD (sin_arg 3) : ℚ) : ℝ) - Real.sin ((sin_arg 3 : ℚ) : ℝ)| ≤ 1 / 10 ^ 6) :
    sin_table sinD 3 = 150 := by
  obtain ⟨a0, a1⟩ := sin_arg_near 3 (by norm_num) (by norm_num)
  have a0' : ((((3 : ℤ) : ℚ) * (6283 / 1000) / 256 - 1 / 10 ^ 12 : ℚ) : ℝ)
      ≤ ((sin_arg 3 : ℚ) : ℝ) := by exact_mod_cast a0
  have a1' : ((sin_arg 3 : ℚ) : ℝ)
      ≤ ((((3 : ℤ) : ℚ) * (6283 / 1000) / 256 + 1 / 10 ^ 12 : ℚ) : ℝ) := by exact_mod_cast a1
  push_cast at a0' a1'
  obtain ⟨w0, w1⟩ := sin_window ((sin_arg 3 : ℚ) : ℝ) (by linarith) (by linarith)
  have hn := abs_le.mp (scaled_sin_near sinD (sin_arg 3) hacc)
  have y0 : ((150 : ℚ) : ℝ) ≤ ((mulD 2047 (sinD (sin_arg 3)) : ℚ) : ℝ) := by
    push_cast
    linarith [hn.1]
  have y1 : ((mulD 2047 (sinD (sin_arg 3)) : ℚ) : ℝ) < ((151 : ℚ) : ℝ) := by
    push_cast
    linarith [hn.2]
  have y0' : (150 : ℚ) ≤ mulD 2047 (sinD (sin_arg 3)) := by exact_mod_cast y0
  have y1' : mulD 2047 (sinD (sin_arg 3)) < 151 := by exact_mod_cast y1
  unfold sin_table toInt
  rw [if_pos (by linarith), Int.floor_eq_iff]
  constructor
  · push_cast; linarith
  · push_cast; linarith

theorem claimed_three : round (2047 * Real.sin (2 * Real.pi * ((3 : ℤ) : ℝ) / 256)) = 151 := by
  have p0 := Real.pi_gt_d4
  have p1 := Real.pi_lt_d4
  obtain ⟨w0, w1⟩ := sin_window (2 * Real.pi * ((3 : ℤ) : ℝ) / 256)
    (by push_cast; linarith) (by push_cast; linarith)
  rw [round_eq, Int.floor_eq_iff]
  constructor
  · push_cast; linarith
  · push_cast; linarith

theorem exists_accurate_sin :
    ∃ sinD : ℚ → ℚ, ∀ x : ℚ, |((sinD x : ℚ) : ℝ) - Real.sin (x : ℝ)| ≤ 1 / 10 ^ 6 := by
  have h : ∀ x : ℚ, ∃ q : ℚ, Real.sin (x : ℝ) - 1 / 10 ^ 6 < (q : ℝ) ∧
      (q : ℝ) < Real.sin (x : ℝ) + 1 / 10 ^ 6 := fun x =>
    exists_rat_btwn (by linarith [show (0 : ℝ) < 1 / 10 ^ 6 by norm_num])
  choose f hf using h
  refine ⟨f, fun x => ?_⟩
  rw [abs_le]
  constructor <;> linarith [(hf x).1, (hf x).2]

theorem int_abs_sub_le_one (a b : ℤ) (h : |(a : ℝ) - (b : ℝ)| < 2) : |a - b| ≤ 1 := by
  have h' : |((a - b : ℤ) : ℝ)| < ((2 : ℤ) : ℝ) := by
    push_cast
    exact h
  rw [← Int.cast_abs] at h'
  have : |a - b| < 2 := by exact_mod_cast h'
  omega

theorem sin_arg_zero : sin_arg 0 = 0 := by
  unfold sin_arg divD mulD
  simp [roundD_zero]

/-- Claim C6, amended. For every `i` in `[0, 256)`, the entry `sin_table[i]` built by
`chirp.c` and by `chirp2.c`, the truncation toward zero of the double
`2047 * sin(i * 6.283 / 256)`, differs by at most `1` from
`round(2047 * sin(2π·i/256))`, whenever the library sine is within `10^-6` of the true
sine at the argument it is given. -/
theorem C6_sin_table_within_one (sinD : ℚ → ℚ) (i : ℤ) (h0 : 0 ≤ i) (h1 : i < 256)
    (hacc : |((sinD (sin_arg i) : ℚ) : ℝ) - Real.sin ((sin_arg i : ℚ) : ℝ)| ≤ 1 / 10 ^ 6) :
    |sin_table sinD i - round (2047 * Real.sin (2 * Real.pi * (i : ℝ) / 256))| ≤ 1 := by
  apply int_abs_sub_le_one
  have hi0 : (0 : ℝ) ≤ i := by exact_mod_cast h0
  have hi1 : (i : ℝ) ≤ 256 := by exact_mod_cast h1.le
  obtain ⟨a0, a1⟩ := sin_arg_near i h0 h1
  have a0' : (((i : ℚ) * (6283 / 1000) / 256 - 1 / 10 ^ 12 : ℚ) : ℝ)
      ≤ ((sin_arg i : ℚ) : ℝ) := by exact_mod_cast a0
  have a1' : ((sin_arg i : ℚ) : ℝ)
      ≤ (((i : ℚ) * (6283 / 1000) / 256 + 1 / 10 ^ 12 : ℚ) : ℝ) := by exact_mod_cast a1
  push_cast at a0' a1'
  have p0 := Real.pi_gt_d6
  have p1 := Real.pi_lt_d6
  -- the argument used by the code against the exact angle
  have hx : |((sin_arg i : ℚ) : ℝ) - 2 * Real.pi * (i : ℝ) / 256| ≤ 2 / 10000 := by
    have e1 : (i : ℝ) * (6283 / 1000) / 256 - 2 * Real.pi * (i : ℝ) / 256
        = (i : ℝ) / 256 * (6283 / 1000 - 2 * Real.pi) := by ring
    have hfrac0 : (0 : ℝ) ≤ (i : ℝ) / 256 := by positivity
    have hfrac1 : (i : ℝ) / 256 ≤ 1 := by rw [div_le_one (by norm_num)]; exact hi1
    have hd0 : -(2 / 10000 - 1 / 10 ^ 12 : ℝ) ≤ 6283 / 1000 - 2 * Real.pi := by
      norm_num
      linarith
    have hd1 : 6283 / 1000 - 2 * Real.pi ≤ (2 / 10000 - 1 / 10 ^ 12 : ℝ) := by
      norm_num
      linarith
    rw [abs_le]
    constructor
    · nlinarith
    · nlinarith
  have hl := sin_lipschitz ((sin_arg i : ℚ) : ℝ) (2 * Real.pi * (i : ℝ) / 256)
  have hn := scaled_sin_near sinD (sin_arg i) hacc
  have ht := toInt_near (mulD 2047 (sinD (sin_arg i)))
  have ht' : |(((toInt (mulD 2047 (sinD (sin_arg i))) : ℤ) : ℚ) : ℝ)
      - ((mulD 2047 (sinD (sin_arg i)) : ℚ) : ℝ)| < 1 := by
    have : ((|((toInt (mulD 2047 (sinD (sin_arg i))) : ℤ) : ℚ)
      - mulD 2047 (sinD (sin_arg i))| : ℚ) : ℝ) < ((1 : ℚ) : ℝ) := by exact_mod_cast ht
    push_cast at this
    exact this
  have hr := abs_sub_round (2047 * Real.sin (2 * Real.pi * (i : ℝ) / 256))
  have e : ((sin_table sinD i : ℤ) : ℝ)
      = (((toInt (mulD 2047 (sinD (sin_arg i))) : ℤ) : ℚ) : ℝ) := by
    unfold sin_table
    push_cast
    rfl
  rw [e]
  have hl' := abs_le.mp (hl.trans hx)
  have hn' := abs_le.mp hn
  have ht'' := abs_lt.mp ht'
  have hr' := abs_le.mp hr
  rw [abs_lt]
  constructor <;> linarith [hl'.1, hl'.2, hn'.1, hn'.2, ht''.1, ht''.2, hr'.1, hr'.2]

/-- Claim C6 at `i = 0` with a sine returning `0`. -/
theorem C6_witness :
    |sin_table (fun _ => 0) 0 - round (2047 * Real.sin (2 * Real.pi * ((0 : ℤ) : ℝ) / 256))|
      ≤ 1 :=
  C6_sin_table_within_one (fun _ => 0) 0 (le_refl 0) (by norm_num)
    (by rw [sin_arg_zero]; simp)

/-- Claim C6, counterexample. At `i = 3` every library sine within `10^-6` of the true sine
makes the code store `150` (`2047 * sin(3 * 6.283 / 256)` is about `150.58`, truncated),
whereas `round(2047 * sin(2π·3/256)) = 151`; hence no such sine makes the table equal to the
rounded formula at every index. -/
theorem C6_counterexample :
    (∀ sinD : ℚ → ℚ,
      |((sinD (sin_arg 3) : ℚ) : ℝ) - Real.sin ((sin_arg 3 : ℚ) : ℝ)| ≤ 1 / 10 ^ 6 →
      sin_table sinD 3 = 150) ∧
    round (2047 * Real.sin (2 * Real.pi * ((3 : ℤ) : ℝ) / 256)) = 151 ∧
    ¬ ∀ sinD : ℚ → ℚ, (∀ x : ℚ, |((sinD x : ℚ) : ℝ) - Real.sin (x : ℝ)| ≤ 1 / 10 ^ 6) →
      ∀ i : ℤ, 0 ≤ i → i < 256 →
        sin_table sinD i = round (2047 * Real.sin (2 * Real.pi * (i : ℝ) / 256)) := by
  refine ⟨sin_table_three, claimed_three, fun H => ?_⟩
  obtain ⟨f, hf⟩ := exists_accurate_sin
  have h1 := H f hf 3 (by norm_num) (by norm_num)
  rw [sin_table_three f (hf _), claimed_three] at h1
  norm_num at h1

end Chirp
